import Mathlib

/-!
Verification of the draft-logic core of the `draft-app` repository.

The definitions below are a shallow embedding of the draft engine found in
the application source (the Firebase-backed component): the auction
constraint helpers (`getAuctionPlayersForTeam`, `getMaxBidForTeam`,
`canTeamBid`), the deterministic budget sort
(`sortTeamsByBudgetWithTiebreaker`), the roster-slot assignment
(`assignPlayersToRosterSlots`), and the state transitions
(`handleDraftPick` plus the mode/current-team recomputation effects,
`handleUndoDraft`, `handleResetDraft`).  JavaScript numbers that can go
negative (budgets, bid amounts) are modelled as `Int`; 1-based counters
(round, pick) as `Nat`.  The JS remainder operator on possibly-negative
values is `Int.tmod` (truncated remainder, matching the sign behaviour of
JS `%`), and the `x || y` fallback on numbers is `jsOr`.
-/

/-- A selectable entity ("player"): id, display name, and position
(category). Only the fields the draft core reads are modelled. -/
structure Player where
  id : Nat
  name : String
  position : String
deriving DecidableEq, Repr

/-- A participant ("team"): id, display name, owner name, remaining
budget, acquired players in draft order, and draft position. -/
structure Team where
  id : Nat
  name : String
  owner : String
  budget : Int
  players : List Player
  draftPosition : Nat
deriving DecidableEq, Repr

/-- One entry of the draft history, as appended by `handleDraftPick`:
the committed player, team, amount spent (0 outside the auction phase),
and the round/pick counters at the moment of the commit. -/
structure PickRecord where
  playerId : Nat
  teamId : Nat
  amount : Int
  round : Nat
  pick : Nat
deriving DecidableEq, Repr

/-- The two allocation regimes. -/
inductive DraftMode where
  | auction : DraftMode
  | snake : DraftMode
deriving DecidableEq, Repr

/-- Draft settings (immutable during the scenarios verified here). -/
structure DraftSettings where
  auctionBudget : Int
  rosterSize : Nat
  auctionRounds : Nat
  draftTimer : Nat
  teamCount : Nat
deriving DecidableEq, Repr

/-- The canonical draft state: the fields of the replicated session state
that the draft-logic core reads and writes.  Transient UI fields
(selected player, pending bid, timers) are cleared on every transition
and are not part of the core state. -/
structure DraftState where
  teams : List Team
  draftedPlayers : List Nat
  draftHistory : List PickRecord
  currentRound : Nat
  currentPick : Nat
  draftMode : DraftMode
  snakeDraftOrder : List Nat
  currentDraftTeam : Option Nat
deriving DecidableEq, Repr

/-- JS `x || d` for numbers: `x` unless `x` is falsy (zero). -/
def jsOr (x d : Nat) : Nat := if x = 0 then d else x

/-- Count how many players this team has drafted during auction rounds. -/
def getAuctionPlayersForTeam (team : Team) (draftHistory : List PickRecord)
    (auctionRounds : Nat) : Nat :=
  (draftHistory.filter
    (fun p => p.teamId == team.id && decide (p.round ≤ auctionRounds))).length

/-- Maximum legal bid for a team.  Note: in snake rounds
(`currentRound > auctionRounds`) the source returns the team's full
budget ("No constraints in snake rounds"), not 0. -/
def getMaxBidForTeam (team : Team) (draftHistory : List PickRecord)
    (auctionRounds currentRound : Nat) : Int :=
  if auctionRounds < currentRound then team.budget
  else
    let auctionPlayersDrafted : Int :=
      (getAuctionPlayersForTeam team draftHistory auctionRounds : Int)
    let playersStillNeeded : Int := (auctionRounds : Int) - auctionPlayersDrafted
    if playersStillNeeded ≤ 0 then 0
    else
      let dollarsToReserve : Int := max 0 (playersStillNeeded - 1)
      max 1 (team.budget - dollarsToReserve)

/-- Whether a team may still bid: it has not yet reached its total
auction player quota, and bidding only happens in auction rounds. -/
def canTeamBid (team : Team) (draftHistory : List PickRecord)
    (auctionRounds currentRound : Nat) : Bool :=
  if auctionRounds < currentRound then false
  else decide (getAuctionPlayersForTeam team draftHistory auctionRounds < auctionRounds)

/-- The deterministic tiebreak hash of a team: a pseudo-random but
input-deterministic function of id, name length and owner-name length. -/
def teamHash (t : Team) : Nat :=
  (t.id * 31 + t.name.length * 17 + t.owner.length * 13) % 1000

/-- The total preorder realised by the sort comparator: higher budget
first, ties broken by ascending `teamHash`. -/
def teamLE (a b : Team) : Prop :=
  b.budget < a.budget ∨ (a.budget = b.budget ∧ teamHash a ≤ teamHash b)

instance : DecidableRel teamLE := fun _ _ =>
  inferInstanceAs (Decidable (_ ∨ _))

instance : IsTotal Team teamLE where
  total a b := by
    unfold teamLE
    rcases lt_trichotomy a.budget b.budget with h | h | h
    · exact Or.inr (Or.inl h)
    · rcases le_total (teamHash a) (teamHash b) with hh | hh
      · exact Or.inl (Or.inr ⟨h, hh⟩)
      · exact Or.inr (Or.inr ⟨h.symm, hh⟩)
    · exact Or.inl (Or.inl h)

instance : IsTrans Team teamLE where
  trans a b c hab hbc := by
    unfold teamLE at *
    rcases hab with h1 | ⟨e1, h1⟩ <;> rcases hbc with h2 | ⟨e2, h2⟩
    · exact Or.inl (h2.trans h1)
    · exact Or.inl (e2 ▸ h1)
    · exact Or.inl (e1 ▸ h2)
    · exact Or.inr ⟨e1.trans e2, h1.trans h2⟩

/-- Sort teams by remaining budget (descending) with the deterministic
tiebreaker. -/
def sortTeamsByBudgetWithTiebreaker (teams : List Team) : List Team :=
  List.insertionSort teamLE teams

/-- A roster slot of the static template. -/
structure RosterSlot where
  id : String
  position : String
  label : String
  eligiblePositions : List String
deriving DecidableEq, Repr

/-- A roster slot together with its (possibly absent) bound player. -/
structure AssignedRosterSlot where
  id : String
  position : String
  label : String
  eligiblePositions : List String
  player : Option Player
  isEmpty : Bool
deriving DecidableEq, Repr

/-- The static roster template (`ROSTER_STRUCTURE` in the source). -/
def ROSTER_STRUCTURE : List RosterSlot :=
  [ { id := "qb", position := "QB", label := "QB", eligiblePositions := ["QB"] },
    { id := "wr1", position := "WR", label := "WR", eligiblePositions := ["WR"] },
    { id := "wr2", position := "WR", label := "WR", eligiblePositions := ["WR"] },
    { id := "wr3", position := "WR", label := "WR", eligiblePositions := ["WR"] },
    { id := "rb1", position := "RB", label := "RB", eligiblePositions := ["RB"] },
    { id := "rb2", position := "RB", label := "RB", eligiblePositions := ["RB"] },
    { id := "te", position := "TE", label := "TE", eligiblePositions := ["TE"] },
    { id := "flex", position := "FLEX", label := "FLEX", eligiblePositions := ["WR", "RB", "TE"] },
    { id := "k", position := "K", label := "K", eligiblePositions := ["K"] },
    { id := "def", position := "DST", label := "DST", eligiblePositions := ["DST"] } ]

/-- The closed set of recognized positions. -/
def validPositions : List String := ["QB", "WR", "RB", "TE", "K", "DST"]

/-- A fresh bench slot (any position can be benched). -/
def benchSlot (n : Nat) : AssignedRosterSlot :=
  { id := "bench" ++ toString n, position := "BEN", label := "BEN",
    eligiblePositions := validPositions, player := none, isEmpty := true }

/-- First preference: an empty position-specific slot (not FLEX, not bench). -/
def slotAcceptsSpecific (pos : String) (slot : AssignedRosterSlot) : Bool :=
  slot.isEmpty && slot.eligiblePositions.contains pos &&
    !(slot.position == "FLEX") && !(slot.position == "BEN")

/-- Second preference: the empty FLEX slot, if eligible. -/
def slotAcceptsFlex (pos : String) (slot : AssignedRosterSlot) : Bool :=
  slot.isEmpty && slot.position == "FLEX" && slot.eligiblePositions.contains pos

/-- Third preference: an empty bench slot. -/
def slotAcceptsBench (pos : String) (slot : AssignedRosterSlot) : Bool :=
  slot.isEmpty && slot.position == "BEN" && slot.eligiblePositions.contains pos

/-- Bind a player into the first slot satisfying `pred` (the
`slots.find(...)` followed by the in-place mutation of the source);
`none` when no slot qualifies. -/
def bindFirst (pred : AssignedRosterSlot → Bool) (p : Player) :
    List AssignedRosterSlot → Option (List AssignedRosterSlot)
  | [] => none
  | s :: rest =>
    if pred s then some ({ s with player := some p, isEmpty := false } :: rest)
    else (bindFirst pred p rest).map (fun r => s :: r)

/-- Process one player of the acquisition list: skip unrecognized
positions; otherwise bind into the best available slot — preferring, in
order, a position-specific slot, the FLEX slot, a bench slot — creating
and binding a new bench slot when none accepts the player. -/
def assignStep (st : List AssignedRosterSlot × Nat) (p : Player) :
    List AssignedRosterSlot × Nat :=
  if validPositions.contains p.position then
    match bindFirst (slotAcceptsSpecific p.position) p st.1 with
    | some slots => (slots, st.2)
    | none =>
      match bindFirst (slotAcceptsFlex p.position) p st.1 with
      | some slots => (slots, st.2)
      | none =>
        match bindFirst (slotAcceptsBench p.position) p st.1 with
        | some slots => (slots, st.2)
        | none =>
          (st.1 ++ [{ benchSlot st.2 with player := some p, isEmpty := false }],
           st.2 + 1)
  else st

/-- Assign players to roster slots with dynamic expansion for overflow
(`assignPlayersToRosterSlots` in the source). -/
def assignPlayersToRosterSlots (players : List Player) (rosterSize : Nat) :
    List AssignedRosterSlot :=
  let base : List AssignedRosterSlot := ROSTER_STRUCTURE.map (fun s =>
    { id := s.id, position := s.position, label := s.label,
      eligiblePositions := s.eligiblePositions, player := none, isEmpty := true })
  let benchSlotsNeeded : Nat := rosterSize - ROSTER_STRUCTURE.length
  let slots := base ++ (List.range benchSlotsNeeded).map (fun i => benchSlot (i + 1))
  (players.foldl assignStep (slots, benchSlotsNeeded + 1)).1

/-- The players bound across a slot list. -/
def boundPlayers (slots : List AssignedRosterSlot) : List Player :=
  slots.filterMap (·.player)

/-- The normalized snake-order index: 1-based snake round
`currentRound − auctionRounds`, 0-based pick index within the round
`(currentPick − 1) % teams.length`, reversed in even snake rounds, and
kept in bounds by the double-modulo of the source.  `Int.tmod` matches
the sign behaviour of the JS `%` operator. -/
def snakeOrderIndexInt (orderLen teamsLen auctionRounds round pickNo : Nat) : Int :=
  let snakeRound : Int := (round : Int) - (auctionRounds : Int)
  let picksIntoSnakeRound : Int := ((pickNo : Int) - 1).tmod (teamsLen : Int)
  let isEvenSnakeRound : Bool := snakeRound.tmod 2 == 0
  let orderIndex : Int :=
    if isEvenSnakeRound then (orderLen : Int) - 1 - picksIntoSnakeRound
    else picksIntoSnakeRound
  ((orderIndex.tmod (orderLen : Int)) + (orderLen : Int)).tmod (orderLen : Int)

/-- The team on the clock in snake mode: `snakeDraftOrder[orderIndex]`
(`none` models the JS `undefined` of an out-of-range access). -/
def snakeCurrentTeam (order : List Nat) (teamsLen auctionRounds round pickNo : Nat) :
    Option Nat :=
  order.get? (snakeOrderIndexInt order.length teamsLen auctionRounds round pickNo).toNat

/-- The pure content of the "calculate current team on the clock"
effect: in auction mode any team can bid (no active team); in snake mode
the active team comes from the normalized snake-order index; an empty
order yields no active team. -/
def snakeActiveTeam (order : List Nat) (teamsLen auctionRounds round pickNo : Nat) :
    Option Nat :=
  if order.length = 0 ∨ teamsLen = 0 then none
  else snakeCurrentTeam order teamsLen auctionRounds round pickNo

/-- The "switch between auction and snake" host effect: entering snake
mode caches the budget-sorted order; falling back to auction clears it. -/
def modeTransitionEffect (settings : DraftSettings) (s : DraftState) : DraftState :=
  if settings.auctionRounds < s.currentRound then
    match s.draftMode with
    | .auction =>
      { s with draftMode := .snake,
               snakeDraftOrder := (sortTeamsByBudgetWithTiebreaker s.teams).map (·.id) }
    | .snake => s
  else
    match s.draftMode with
    | .snake => { s with draftMode := .auction, snakeDraftOrder := [] }
    | .auction => s

/-- The "calculate current team on the clock" host effect.  In snake
mode with an empty order (or no teams) the source returns early,
leaving the previous value in place. -/
def currentTeamEffect (settings : DraftSettings) (s : DraftState) : DraftState :=
  match s.draftMode with
  | .auction => { s with currentDraftTeam := none }
  | .snake =>
    if s.snakeDraftOrder.isEmpty || s.teams.isEmpty then s
    else
      { s with currentDraftTeam :=
          (snakeCurrentTeam s.snakeDraftOrder s.teams.length settings.auctionRounds
            s.currentRound s.currentPick) }

/-- Find a team by id. -/
def findTeam (teams : List Team) (teamId : Nat) : Option Team :=
  teams.find? (fun t => t.id == teamId)

/-- The per-team update of a commit: the target team gains the player
and, in auction mode, pays the amount. -/
def draftTeamUpd (mode : DraftMode) (player : Player) (teamId : Nat)
    (amount : Int) (team : Team) : Team :=
  if team.id == teamId then
    { team with
        players := team.players ++ [player],
        budget := if mode = .auction then team.budget - amount else team.budget }
  else team

/-- `handleDraftPick`: the core commit.  The only validation in the
source is the catalog lookup (`players.find`); on failure nothing
happens (`none`).  In auction mode the amount is charged to the team and
recorded; in snake mode the recorded amount is 0 and the budget is
untouched.  The pick counter always advances by 1 and the round advances
exactly when the pre-commit pick index is a multiple of the team count. -/
def handleDraftPickCore (catalog : List Player) (s : DraftState)
    (playerId teamId : Nat) (amount : Int) : Option DraftState :=
  match catalog.find? (fun p => p.id == playerId) with
  | none => none
  | some player =>
    let updatedTeams := s.teams.map (draftTeamUpd s.draftMode player teamId amount)
    let newRecord : PickRecord :=
      { playerId := playerId, teamId := teamId,
        amount := if s.draftMode = .auction then amount else 0,
        round := s.currentRound, pick := s.currentPick }
    some { teams := updatedTeams,
           draftedPlayers := s.draftedPlayers ++ [playerId],
           draftHistory := s.draftHistory ++ [newRecord],
           currentRound :=
             if s.currentPick % s.teams.length = 0 then s.currentRound + 1
             else s.currentRound,
           currentPick := s.currentPick + 1,
           draftMode := s.draftMode,
           snakeDraftOrder := s.snakeDraftOrder,
           currentDraftTeam := s.currentDraftTeam }

/-- A commit followed by the host effects that keep phase, turn order
and the team on the clock consistent with the new counters. -/
def commitPick (settings : DraftSettings) (catalog : List Player) (s : DraftState)
    (playerId teamId : Nat) (amount : Int) : Option DraftState :=
  (handleDraftPickCore catalog s playerId teamId amount).map
    (fun s1 => currentTeamEffect settings (modeTransitionEffect settings s1))

/-- `handleBid` accepts a bid exactly when the team exists and the bid
does not exceed the team's remaining budget; otherwise it silently
returns. -/
def handleBidAccepts (teams : List Team) (teamId : Nat) (bidAmount : Int) : Bool :=
  match findTeam teams teamId with
  | none => false
  | some team => decide (bidAmount ≤ team.budget)

/-- The per-team update of an undo: the target team loses the recorded
player and, for an auction-round record, is refunded the amount. -/
def undoTeamUpd (settings : DraftSettings) (lastPick : PickRecord)
    (team : Team) : Team :=
  if team.id == lastPick.teamId then
    { team with
        players := team.players.filter (fun p => !(p.id == lastPick.playerId)),
        budget :=
          if jsOr lastPick.round 1 ≤ settings.auctionRounds then
            team.budget + lastPick.amount
          else team.budget }
  else team

/-- `handleUndoDraft`: no-op on empty history or when the recorded
player no longer resolves in the catalog; otherwise reverses the last
pick, restores the counters from the popped record, re-derives the mode
from the restored round, and recomputes the snake order from the
restored budgets. -/
def handleUndoDraft (settings : DraftSettings) (catalog : List Player)
    (s : DraftState) : DraftState :=
  match s.draftHistory.getLast? with
  | none => s
  | some lastPick =>
    match catalog.find? (fun p => p.id == lastPick.playerId) with
    | none => s
    | some _ =>
      let updatedTeams := s.teams.map (undoTeamUpd settings lastPick)
      let newDraftHistory := s.draftHistory.dropLast
      let newDrafted := s.draftedPlayers.filter (fun i => !(i == lastPick.playerId))
      let newRound := jsOr lastPick.round s.currentRound
      let newPick := jsOr lastPick.pick s.currentPick
      if settings.auctionRounds < newRound then
        let newSnakeDraftOrder :=
          (sortTeamsByBudgetWithTiebreaker updatedTeams).map (·.id)
        { teams := updatedTeams, draftedPlayers := newDrafted,
          draftHistory := newDraftHistory,
          currentRound := newRound, currentPick := newPick,
          draftMode := .snake, snakeDraftOrder := newSnakeDraftOrder,
          currentDraftTeam :=
            snakeCurrentTeam newSnakeDraftOrder s.teams.length settings.auctionRounds
              newRound newPick }
      else
        { teams := updatedTeams, draftedPlayers := newDrafted,
          draftHistory := newDraftHistory,
          currentRound := newRound, currentPick := newPick,
          draftMode := .auction, snakeDraftOrder := [],
          currentDraftTeam := none }

/-- `handleResetDraft`: reinitialize counters and history, restoring
every budget to the configured auction budget and emptying rosters. -/
def handleResetDraft (settings : DraftSettings) (s : DraftState) : DraftState :=
  { teams := s.teams.map (fun team =>
      { team with players := [], budget := settings.auctionBudget }),
    draftedPlayers := [], draftHistory := [],
    currentRound := 1, currentPick := 1,
    draftMode := .auction, snakeDraftOrder := [], currentDraftTeam := none }

/-- Sum of the amounts of a team's auction-phase picks in a history. -/
def biddingSpent (teamId : Nat) (auctionRounds : Nat)
    (history : List PickRecord) : Int :=
  ((history.filter
      (fun r => r.teamId == teamId && decide (jsOr r.round 1 ≤ auctionRounds))).map
    (·.amount)).sum

/-- One transition of the draft engine, as the application exposes it:
an auction commit goes through the bid interface (which only enables a
team when `canTeamBid` holds and the bid is within `getMaxBidForTeam`,
with bids clamped to at least $1) and through `handleBid`'s budget
check; a snake commit goes through `handleSnakeDraftPick` (the team on
the clock picks, no amount); both only offer players that are not yet
drafted; undo and reset are always available to the host. -/
inductive Step (settings : DraftSettings) (catalog : List Player) :
    DraftState → DraftState → Prop where
  | commitAuction {s s' : DraftState} {playerId teamId : Nat} {amount : Int}
      {team : Team} :
      s.draftMode = .auction →
      playerId ∉ s.draftedPlayers →
      findTeam s.teams teamId = some team →
      canTeamBid team s.draftHistory settings.auctionRounds s.currentRound = true →
      1 ≤ amount →
      amount ≤ getMaxBidForTeam team s.draftHistory settings.auctionRounds s.currentRound →
      handleBidAccepts s.teams teamId amount = true →
      commitPick settings catalog s playerId teamId amount = some s' →
      Step settings catalog s s'
  | commitSnake {s s' : DraftState} {playerId teamId : Nat} :
      s.draftMode = .snake →
      s.currentDraftTeam = some teamId →
      playerId ∉ s.draftedPlayers →
      commitPick settings catalog s playerId teamId 0 = some s' →
      Step settings catalog s s'
  | undo {s : DraftState} :
      Step settings catalog s (handleUndoDraft settings catalog s)
  | reset {s : DraftState} :
      Step settings catalog s (handleResetDraft settings s)

/-- The state created at session start: round 1, pick 1, auction mode,
empty history, full budgets, empty rosters, distinct team ids. -/
def IsInitial (settings : DraftSettings) (s : DraftState) : Prop :=
  s.teams ≠ [] ∧
  (∀ t ∈ s.teams, t.players = [] ∧ t.budget = settings.auctionBudget) ∧
  (s.teams.map (·.id)).Nodup ∧
  s.draftedPlayers = [] ∧ s.draftHistory = [] ∧
  s.currentRound = 1 ∧ s.currentPick = 1 ∧
  s.draftMode = .auction ∧ s.snakeDraftOrder = [] ∧ s.currentDraftTeam = none

instance (settings : DraftSettings) (s : DraftState) :
    Decidable (IsInitial settings s) :=
  inferInstanceAs (Decidable (_ ∧ _))

/-- Reachability by commit, undo and reset from a given state. -/
def Reachable (settings : DraftSettings) (catalog : List Player)
    (s₀ s : DraftState) : Prop :=
  Relation.ReflTransGen (Step settings catalog) s₀ s

/-! Concrete fixtures used by witnesses and counterexamples. -/

/-- A fixture team with a $200 budget. -/
def wTeamA : Team :=
  { id := 1, name := "Team 1", owner := "Owner 1", budget := 200,
    players := [], draftPosition := 1 }

/-- A second fixture team with a $200 budget. -/
def wTeamB : Team :=
  { id := 2, name := "Team 2", owner := "Owner 2", budget := 200,
    players := [], draftPosition := 2 }

/-- A fixture team with a $10 budget. -/
def wTeam10 : Team :=
  { id := 3, name := "Team 3", owner := "Owner 3", budget := 10,
    players := [], draftPosition := 3 }

/-- A fixture catalog of two players. -/
def wCatalog : List Player :=
  [ { id := 1, name := "Alpha", position := "QB" },
    { id := 2, name := "Beta", position := "WR" } ]

/-- Fixture settings: $200 budget, 5 auction rounds, 2 teams. -/
def wSettings : DraftSettings :=
  { auctionBudget := 200, rosterSize := 16, auctionRounds := 5,
    draftTimer := 90, teamCount := 2 }

/-- The fixture initial state for `wSettings`. -/
def wInit : DraftState :=
  { teams := [wTeamA, wTeamB], draftedPlayers := [], draftHistory := [],
    currentRound := 1, currentPick := 1, draftMode := .auction,
    snakeDraftOrder := [], currentDraftTeam := none }

/-- A history of five auction picks by team 1 (its full quota for
`auctionRounds = 5`). -/
def wFullHistory : List PickRecord :=
  [ { playerId := 11, teamId := 1, amount := 1, round := 1, pick := 1 },
    { playerId := 12, teamId := 1, amount := 1, round := 2, pick := 3 },
    { playerId := 13, teamId := 1, amount := 1, round := 3, pick := 5 },
    { playerId := 14, teamId := 1, amount := 1, round := 4, pick := 7 },
    { playerId := 15, teamId := 1, amount := 1, round := 5, pick := 9 } ]

/-- Claim C3 counterexample: with `currentRound = 6 > biddingRounds = 5`
the computation does return `canBid = false`, but `maxBid` is the team's
full remaining budget (200), not 0 as the claim states. -/
theorem claim_C3_cex :
    5 < 6 ∧
    canTeamBid wTeamA [] 5 6 = false ∧
    getMaxBidForTeam wTeamA [] 5 6 = 200 ∧
    ¬ getMaxBidForTeam wTeamA [] 5 6 = 0 := by
  decide

/-- Claim C3 (amended): in both disqualifying cases `canBid = false`;
`maxBid = 0` holds only in the `picksStillNeeded ≤ 0` case with
`currentRound ≤ biddingRounds`, while for `currentRound > biddingRounds`
the computation returns the team's remaining budget instead. -/
theorem claim_C3 (team : Team) (hist : List PickRecord) (aR r : Nat) :
    (aR < r →
      canTeamBid team hist aR r = false ∧
      getMaxBidForTeam team hist aR r = team.budget) ∧
    (r ≤ aR → (aR : Int) - (getAuctionPlayersForTeam team hist aR : Int) ≤ 0 →
      canTeamBid team hist aR r = false ∧
      getMaxBidForTeam team hist aR r = 0) := by
  constructor
  · intro h
    constructor
    · simp [canTeamBid, h]
    · simp [getMaxBidForTeam, h]
  · intro hr hneed
    have hnotlt : ¬ aR < r := Nat.not_lt.mpr hr
    constructor
    · have : ¬ getAuctionPlayersForTeam team hist aR < aR := by omega
      simp [canTeamBid, hnotlt, this]
    · simp [getMaxBidForTeam, hnotlt, hneed]

/-- Claim C3 witness: both amended branches at concrete inputs — snake
round (round 6 of 5) gives `canBid = false` with `maxBid` equal to the
budget; a filled auction quota (5 picks of 5, round 5) gives
`canBid = false` and `maxBid = 0`. -/
theorem claim_C3_witness :
    (canTeamBid wTeamA [] 5 6 = false ∧ getMaxBidForTeam wTeamA [] 5 6 = wTeamA.budget) ∧
    (canTeamBid wTeamA wFullHistory 5 5 = false ∧
      getMaxBidForTeam wTeamA wFullHistory 5 5 = 0) :=
  ⟨(claim_C3 wTeamA [] 5 6).1 (by decide),
   (claim_C3 wTeamA wFullHistory 5 5).2 (by decide) (by decide)⟩

/-- Claim C4: in the live-bidding case (`currentRound ≤ biddingRounds`
and `picksStillNeeded > 0`) the computation returns
`maxBid = max 1 (remainingBudget − max 0 (picksStillNeeded − 1))` and
`canBid = (biddingPicksMade < biddingRounds)`, where `biddingPicksMade`
counts the team's history entries with `round ≤ biddingRounds`. -/
theorem claim_C4 (team : Team) (hist : List PickRecord) (aR r : Nat)
    (hr : r ≤ aR)
    (hneed : (0 : Int) < (aR : Int) - (getAuctionPlayersForTeam team hist aR : Int)) :
    getMaxBidForTeam team hist aR r =
      max 1 (team.budget -
        max 0 ((aR : Int) - (getAuctionPlayersForTeam team hist aR : Int) - 1)) ∧
    canTeamBid team hist aR r =
      decide (getAuctionPlayersForTeam team hist aR < aR) := by
  have hnotlt : ¬ aR < r := Nat.not_lt.mpr hr
  have hneed' : ¬ (aR : Int) - (getAuctionPlayersForTeam team hist aR : Int) ≤ 0 := by
    omega
  constructor
  · simp [getMaxBidForTeam, hnotlt, hneed']
  · simp [canTeamBid, hnotlt]

/-- Claim C4 witness: the spec's own instance — remaining budget 10 with
3 picks still needed reserves $2 and yields `maxBid = 8`. -/
theorem claim_C4_witness :
    getMaxBidForTeam wTeam10 [] 3 1 = 8 ∧ canTeamBid wTeam10 [] 3 1 = true := by
  have h := claim_C4 wTeam10 [] 3 1 (by decide) (by decide)
  exact ⟨h.1.trans (by decide), h.2.trans (by decide)⟩

/-- A state in which player 1 has already been drafted by team 1. -/
def wDraftedState : DraftState :=
  { teams :=
      [ { wTeamA with
          budget := 195,
          players := [{ id := 1, name := "Alpha", position := "QB" }] },
        wTeamB ],
    draftedPlayers := [1],
    draftHistory := [{ playerId := 1, teamId := 1, amount := 5, round := 1, pick := 1 }],
    currentRound := 1, currentPick := 2, draftMode := .auction,
    snakeDraftOrder := [], currentDraftTeam := none }

/-- Claim C2 counterexample: player 1 is already drafted, yet
`handleDraftPick` commits it again (to a different team) instead of
rejecting — the result is a changed state, with no failure reported. -/
theorem claim_C2_cex :
    1 ∈ wDraftedState.draftedPlayers ∧
    ¬ commitPick wSettings wCatalog wDraftedState 1 2 5 = none ∧
    ¬ commitPick wSettings wCatalog wDraftedState 1 2 5 = some wDraftedState := by
  decide

/-- Claim C2 (amended): `handleDraftPick` validates only that the entity
id resolves in the catalog; it rejects — as a silent no-op that changes
nothing and never throws, not as a typed failure — exactly when the
lookup fails, and performs no already-drafted, eligibility, budget or
on-the-clock check itself (the budget check lives in `handleBid`, which
silently ignores a bid above the team's remaining budget). -/
theorem claim_C2 (settings : DraftSettings) (catalog : List Player)
    (s : DraftState) (playerId teamId : Nat) (amount : Int) :
    commitPick settings catalog s playerId teamId amount = none ↔
      catalog.find? (fun p => p.id == playerId) = none := by
  unfold commitPick handleDraftPickCore
  cases h : catalog.find? (fun p => p.id == playerId) <;> simp [h]

/-- A state whose last history record names a player id (999) that is
absent from the fixture catalog. -/
def wOrphanState : DraftState :=
  { teams := [wTeamA, wTeamB],
    draftedPlayers := [999],
    draftHistory := [{ playerId := 999, teamId := 1, amount := 50, round := 1, pick := 1 }],
    currentRound := 1, currentPick := 2, draftMode := .auction,
    snakeDraftOrder := [], currentDraftTeam := none }

/-- Claim C10: when the history is non-empty but the last record's
entity id does not resolve in the current catalog, `handleUndoDraft`
leaves the entire state unchanged — nothing is popped and nothing
throws. -/
theorem claim_C10 (settings : DraftSettings) (catalog : List Player)
    (s : DraftState) (rec : PickRecord)
    (hlast : s.draftHistory.getLast? = some rec)
    (hfind : catalog.find? (fun p => p.id == rec.playerId) = none) :
    handleUndoDraft settings catalog s = s := by
  unfold handleUndoDraft
  simp only [hlast, hfind]

/-- Claim C10 witness: undoing with a history whose last record names
the missing player 999 changes nothing. -/
theorem claim_C10_witness :
    handleUndoDraft wSettings wCatalog wOrphanState = wOrphanState :=
  claim_C10 wSettings wCatalog wOrphanState
    { playerId := 999, teamId := 1, amount := 50, round := 1, pick := 1 }
    (by decide) (by decide)

/-- With `teamsLen = orderLen = n > 0`, a 1-based pick and a round past
the auction, the normalized snake index is the 0-based within-round
index `i = (pick − 1) % n` in odd snake rounds and `n − 1 − i` in even
ones. -/
theorem snakeOrderIndexInt_toNat (n aR round pickNo : Nat)
    (hn : 0 < n) (hp : 1 ≤ pickNo) (hr : aR < round) :
    (snakeOrderIndexInt n n aR round pickNo).toNat =
      if (round - aR) % 2 = 0 then n - 1 - (pickNo - 1) % n
      else (pickNo - 1) % n := by
  have hi : (pickNo - 1) % n < n := Nat.mod_lt _ hn
  simp only [snakeOrderIndexInt]
  have e1 : ((pickNo : Int) - 1) = ((pickNo - 1 : Nat) : Int) := by omega
  have e2 : ((round : Int) - (aR : Int)) = ((round - aR : Nat) : Int) := by omega
  rw [e1, e2]
  have e3 : ((pickNo - 1 : Nat) : Int).tmod (n : Int) = (((pickNo - 1) % n : Nat) : Int) := by
    rw [Int.tmod_eq_emod (by positivity) (by positivity)]
    push_cast
    rfl
  have e4 : ((round - aR : Nat) : Int).tmod 2 = (((round - aR) % 2 : Nat) : Int) := by
    rw [Int.tmod_eq_emod (by positivity) (by norm_num)]
    push_cast
    rfl
  rw [e3, e4]
  have norm_small : ∀ m : Nat, m < n →
      (((m : Int).tmod (n : Int) + (n : Int)).tmod (n : Int)).toNat = m := by
    intro m hm
    have t1 : (m : Int).tmod (n : Int) = (m : Int) := by
      rw [Int.tmod_eq_emod (by positivity) (by positivity)]
      exact Int.emod_eq_of_lt (by positivity) (by exact_mod_cast hm)
    have t2 : ((m : Int) + n) % (n : Int) = (m : Int) % n := by
      have t3 := Int.add_mul_emod_self_left (m : Int) (n : Int) 1
      rwa [mul_one] at t3
    rw [t1, Int.tmod_eq_emod (by positivity) (by positivity), t2,
      Int.emod_eq_of_lt (by positivity) (by exact_mod_cast hm)]
    exact Int.toNat_natCast m
  by_cases hpar : (round - aR) % 2 = 0
  · have hbeq : ((((round - aR) % 2 : Nat) : Int) == 0) = true := by
      simp [hpar]
    simp only [hbeq, if_pos, hpar, if_true]
    have e5 : ((n : Int) - 1 - (((pickNo - 1) % n : Nat) : Int)) =
        ((n - 1 - (pickNo - 1) % n : Nat) : Int) := by omega
    rw [e5]
    exact norm_small _ (by omega)
  · have hbeq : ((((round - aR) % 2 : Nat) : Int) == 0) = false := by
      simp only [beq_eq_false_iff_ne, ne_eq, Nat.cast_eq_zero]
      exact hpar
    simp only [hbeq, if_neg, hpar, if_false]
    exact norm_small _ hi

/-- Claim C8: the active-participant computation of the snake phase.
With the participant count equal to the order length, a 1-based pick and
a post-auction round, the active participant is `order[i]` in odd snake
rounds and `order[length − 1 − i]` in even ones, for
`i = (currentPick − 1) mod participantCount`, the index being kept in
bounds by the double-modulo normalization; an empty order yields no
active participant. -/
theorem claim_C8 :
    (∀ teamsLen aR round pickNo : Nat,
      snakeActiveTeam [] teamsLen aR round pickNo = none) ∧
    (∀ (order : List Nat) (aR round pickNo : Nat),
      order ≠ [] → 1 ≤ pickNo → aR < round →
      ((round - aR) % 2 = 1 →
        snakeActiveTeam order order.length aR round pickNo =
          order.get? ((pickNo - 1) % order.length)) ∧
      ((round - aR) % 2 = 0 →
        snakeActiveTeam order order.length aR round pickNo =
          order.get? (order.length - 1 - (pickNo - 1) % order.length))) := by
  constructor
  · intro teamsLen aR round pickNo
    simp [snakeActiveTeam]
  · intro order aR round pickNo hne hp hr
    have hn : 0 < order.length := List.length_pos.mpr hne
    have hidx := snakeOrderIndexInt_toNat order.length aR round pickNo hn hp hr
    constructor
    · intro hodd
      have hpar : ¬ (round - aR) % 2 = 0 := by omega
      simp only [snakeActiveTeam, snakeCurrentTeam]
      rw [if_neg (by omega), hidx, if_neg hpar]
    · intro heven
      simp only [snakeActiveTeam, snakeCurrentTeam]
      rw [if_neg (by omega), hidx, if_pos heven]

/-- Claim C8 witness: with order `[3, 1, 2]` (3 teams, 5 auction
rounds), round 6 is the first (odd) snake round so pick 7 puts the first
team of the order on the clock, while round 7 (even) at pick 10 reverses
the order; an empty order yields no active participant. -/
theorem claim_C8_witness :
    snakeActiveTeam [] 3 5 6 7 = none ∧
    snakeActiveTeam [3, 1, 2] 3 5 6 7 = some 3 ∧
    snakeActiveTeam [3, 1, 2] 3 5 7 10 = some 2 := by
  refine ⟨claim_C8.1 3 5 6 7, ?_, ?_⟩
  · have h := (claim_C8.2 [3, 1, 2] 5 6 7 (by decide) (by decide) (by decide)).1 (by decide)
    exact h.trans (by decide)
  · have h := (claim_C8.2 [3, 1, 2] 5 7 10 (by decide) (by decide) (by decide)).2 (by decide)
    exact h.trans (by decide)

/-- Invariant of a slot list: a slot flagged empty holds no player. -/
def SlotsInv (slots : List AssignedRosterSlot) : Prop :=
  ∀ s ∈ slots, s.isEmpty = true → s.player = none

/-- Binding a player into the first acceptable slot adds exactly that
player to the bound multiset and preserves the slot invariant. -/
theorem bindFirst_perm {pred : AssignedRosterSlot → Bool} {p : Player}
    (hpred : ∀ s, pred s = true → s.isEmpty = true) :
    ∀ {slots slots' : List AssignedRosterSlot}, SlotsInv slots →
      bindFirst pred p slots = some slots' →
      (boundPlayers slots').Perm (p :: boundPlayers slots) ∧ SlotsInv slots' := by
  intro slots
  induction slots with
  | nil => intro slots' _ h; simp [bindFirst] at h
  | cons s rest ih =>
    intro slots' hinv hbind
    have hinv_rest : SlotsInv rest := fun x hx => hinv x (List.mem_cons_of_mem s hx)
    by_cases hps : pred s = true
    · have hnone : s.player = none := hinv s (List.mem_cons_self s rest) (hpred s hps)
      simp only [bindFirst, if_pos hps, Option.some.injEq] at hbind
      subst hbind
      constructor
      · simp [boundPlayers, List.filterMap_cons, hnone]
      · intro x hx hempty
        rcases List.mem_cons.mp hx with hx | hx
        · subst hx; simp at hempty
        · exact hinv_rest x hx hempty
    · simp only [bindFirst, if_neg hps, Option.map_eq_some'] at hbind
      obtain ⟨rest', hrest', rfl⟩ := hbind
      obtain ⟨hperm, hinv'⟩ := ih hinv_rest hrest'
      constructor
      · cases hsp : s.player with
        | none =>
          simpa [boundPlayers, List.filterMap_cons, hsp] using hperm
        | some q =>
          simp only [boundPlayers, List.filterMap_cons, hsp]
          exact (hperm.cons q).trans (List.Perm.swap p q _)
      · intro x hx hempty
        rcases List.mem_cons.mp hx with rfl | hx
        · exact hinv x (List.mem_cons_self x rest) hempty
        · exact hinv' x hx hempty

/-- Each of the three acceptance predicates only accepts empty slots. -/
theorem slotAccepts_isEmpty (pos : String) (s : AssignedRosterSlot) :
    (slotAcceptsSpecific pos s = true → s.isEmpty = true) ∧
    (slotAcceptsFlex pos s = true → s.isEmpty = true) ∧
    (slotAcceptsBench pos s = true → s.isEmpty = true) := by
  refine ⟨fun h => ?_, fun h => ?_, fun h => ?_⟩
  · simp only [slotAcceptsSpecific, Bool.and_eq_true] at h
    exact h.1.1.1
  · simp only [slotAcceptsFlex, Bool.and_eq_true] at h
    exact h.1.1
  · simp only [slotAcceptsBench, Bool.and_eq_true] at h
    exact h.1.1

/-- One assignment step adds exactly the processed player to the bound
multiset when its position is recognized, adds nothing otherwise, and
preserves the slot invariant. -/
theorem assignStep_perm (p : Player) (slots : List AssignedRosterSlot) (k : Nat)
    (hinv : SlotsInv slots) :
    (boundPlayers (assignStep (slots, k) p).1).Perm
      (boundPlayers slots ++
        (if validPositions.contains p.position then [p] else [])) ∧
    SlotsInv (assignStep (slots, k) p).1 := by
  by_cases hv : validPositions.contains p.position = true
  · have hperm_singleton :
        ∀ l : List Player, (p :: l).Perm (l ++ [p]) :=
      fun l => (List.perm_append_singleton p l).symm
    simp only [assignStep, if_pos hv]
    rcases h1 : bindFirst (slotAcceptsSpecific p.position) p slots with _ | slots'
    · rcases h2 : bindFirst (slotAcceptsFlex p.position) p slots with _ | slots'
      · rcases h3 : bindFirst (slotAcceptsBench p.position) p slots with _ | slots'
        · constructor
          · simp only [hv, if_true, boundPlayers, List.filterMap_append]
            simp [boundPlayers]
          · intro x hx hempty
            rcases List.mem_append.mp hx with hx | hx
            · exact hinv x hx hempty
            · simp at hx; subst hx; simp at hempty
        · obtain ⟨hperm, hinv'⟩ :=
            bindFirst_perm (fun s => (slotAccepts_isEmpty p.position s).2.2) hinv h3
          exact ⟨hperm.trans (by simp [hperm_singleton]), hinv'⟩
      · obtain ⟨hperm, hinv'⟩ :=
          bindFirst_perm (fun s => (slotAccepts_isEmpty p.position s).2.1) hinv h2
        exact ⟨hperm.trans (by simp [hperm_singleton]), hinv'⟩
    · obtain ⟨hperm, hinv'⟩ :=
        bindFirst_perm (fun s => (slotAccepts_isEmpty p.position s).1) hinv h1
      exact ⟨hperm.trans (by simp [hperm_singleton]), hinv'⟩
  · simp only [assignStep, hv]
    simp only [Bool.false_eq_true, if_false]
    exact ⟨by simp, hinv⟩

/-- Folding the assignment over the acquisition list appends exactly the
recognized-position players to the bound multiset. -/
theorem foldl_assignStep_perm :
    ∀ (ps : List Player) (slots : List AssignedRosterSlot) (k : Nat),
      SlotsInv slots →
      (boundPlayers ((ps.foldl assignStep (slots, k)).1)).Perm
        (boundPlayers slots ++
          ps.filter (fun p => validPositions.contains p.position)) := by
  intro ps
  induction ps with
  | nil => intro slots k _; simp
  | cons p ps ih =>
    intro slots k hinv
    obtain ⟨hstep, hinv'⟩ := assignStep_perm p slots k hinv
    have heta : assignStep (slots, k) p =
        ((assignStep (slots, k) p).1, (assignStep (slots, k) p).2) := rfl
    have hfold : ((p :: ps).foldl assignStep (slots, k)) =
        ps.foldl assignStep ((assignStep (slots, k) p).1, (assignStep (slots, k) p).2) := by
      rw [List.foldl_cons, ← heta]
    rw [hfold]
    have ihp := ih (assignStep (slots, k) p).1 (assignStep (slots, k) p).2 hinv'
    refine ihp.trans ?_
    refine (hstep.append_right _).trans ?_
    by_cases hv : validPositions.contains p.position = true
    · simp only [hv, if_true, List.filter_cons, hv]
      rw [List.append_assoc]
      exact List.Perm.append_left _ (by simp [List.perm_middle])
    · simp only [hv, if_false, List.filter_cons]
      simp [hv]

/-- Claim C9: slot coverage.  For every acquisition list and roster
size, the bound players of the computed slot assignment are, as a
multiset, exactly the acquired players whose position is recognized:
each such player is bound to exactly one slot (a fresh bench slot being
appended when no existing empty eligible slot remains), and no player of
unrecognized position is bound. -/
theorem claim_C9 (players : List Player) (rosterSize : Nat) :
    (boundPlayers (assignPlayersToRosterSlots players rosterSize)).Perm
      (players.filter (fun p => validPositions.contains p.position)) := by
  unfold assignPlayersToRosterSlots
  have hinv : SlotsInv (ROSTER_STRUCTURE.map (fun s =>
      { id := s.id, position := s.position, label := s.label,
        eligiblePositions := s.eligiblePositions, player := none,
        isEmpty := true : AssignedRosterSlot }) ++
      (List.range (rosterSize - ROSTER_STRUCTURE.length)).map
        (fun i => benchSlot (i + 1))) := by
    intro x hx _
    rcases List.mem_append.mp hx with hx | hx
    · obtain ⟨s, _, rfl⟩ := List.mem_map.mp hx
      rfl
    · obtain ⟨i, _, rfl⟩ := List.mem_map.mp hx
      rfl
  have hempty : boundPlayers (ROSTER_STRUCTURE.map (fun s =>
      { id := s.id, position := s.position, label := s.label,
        eligiblePositions := s.eligiblePositions, player := none,
        isEmpty := true : AssignedRosterSlot }) ++
      (List.range (rosterSize - ROSTER_STRUCTURE.length)).map
        (fun i => benchSlot (i + 1))) = [] := by
    rw [boundPlayers, List.filterMap_eq_nil_iff]
    intro x hx
    rcases List.mem_append.mp hx with hx | hx
    · obtain ⟨s, _, rfl⟩ := List.mem_map.mp hx
      rfl
    · obtain ⟨i, _, rfl⟩ := List.mem_map.mp hx
      rfl
  have h := foldl_assignStep_perm players _ (rosterSize - ROSTER_STRUCTURE.length + 1) hinv
  rw [hempty] at h
  simpa using h

/-- The invariant that every state reachable by commit/undo/reset
satisfies: well-formed counters, mode/phase coupling, order and
current-team caches consistent with the rules that recompute them,
histories and rosters in exact correspondence, and budget conservation. -/
structure Valid (settings : DraftSettings) (s : DraftState) : Prop where
  teams_ne : s.teams ≠ []
  ids_nodup : (s.teams.map (fun t => t.id)).Nodup
  pick_pos : 1 ≤ s.currentPick
  round_eq : s.currentRound = (s.currentPick - 1) / s.teams.length + 1
  mode_iff : s.draftMode = DraftMode.snake ↔ settings.auctionRounds < s.currentRound
  order_snake : s.draftMode = DraftMode.snake →
    s.snakeDraftOrder = (sortTeamsByBudgetWithTiebreaker s.teams).map (fun t => t.id)
  order_auction : s.draftMode = DraftMode.auction → s.snakeDraftOrder = []
  cur_snake : s.draftMode = DraftMode.snake →
    s.currentDraftTeam = snakeCurrentTeam s.snakeDraftOrder s.teams.length
      settings.auctionRounds s.currentRound s.currentPick
  cur_auction : s.draftMode = DraftMode.auction → s.currentDraftTeam = none
  drafted_eq : s.draftedPlayers = s.draftHistory.map (fun r => r.playerId)
  hist_nodup : (s.draftHistory.map (fun r => r.playerId)).Nodup
  roster_eq : ∀ t ∈ s.teams, t.players.map (fun p => p.id) =
    (s.draftHistory.filter (fun r => r.teamId == t.id)).map (fun r => r.playerId)
  budget_eq : ∀ t ∈ s.teams,
    t.budget = settings.auctionBudget - biddingSpent t.id settings.auctionRounds s.draftHistory
  budget_nonneg : ∀ t ∈ s.teams, 0 ≤ t.budget
  rec_ok : ∀ r ∈ s.draftHistory,
    1 ≤ r.round ∧ 1 ≤ r.pick ∧ r.round = (r.pick - 1) / s.teams.length + 1 ∧
    0 ≤ r.amount ∧ (settings.auctionRounds < r.round → r.amount = 0)

/-- `jsOr` on a positive number is the number itself. -/
theorem jsOr_pos {x : Nat} (h : 1 ≤ x) (d : Nat) : jsOr x d = x := by
  unfold jsOr
  rw [if_neg (by omega)]

/-- A successful catalog lookup returns the player with the looked-up id. -/
theorem find?_id_eq {catalog : List Player} {pid : Nat} {player : Player}
    (h : catalog.find? (fun p => p.id == pid) = some player) : player.id = pid := by
  have h2 := List.find?_some h
  simpa using h2

/-- The mode-transition effect only touches `draftMode` and
`snakeDraftOrder`. -/
theorem modeTransitionEffect_fields (settings : DraftSettings) (s : DraftState) :
    (modeTransitionEffect settings s).teams = s.teams ∧
    (modeTransitionEffect settings s).draftedPlayers = s.draftedPlayers ∧
    (modeTransitionEffect settings s).draftHistory = s.draftHistory ∧
    (modeTransitionEffect settings s).currentRound = s.currentRound ∧
    (modeTransitionEffect settings s).currentPick = s.currentPick ∧
    (modeTransitionEffect settings s).currentDraftTeam = s.currentDraftTeam := by
  unfold modeTransitionEffect
  by_cases h : settings.auctionRounds < s.currentRound <;>
    cases hm : s.draftMode <;> simp [h, hm]

/-- The current-team effect only touches `currentDraftTeam`. -/
theorem currentTeamEffect_fields (settings : DraftSettings) (s : DraftState) :
    (currentTeamEffect settings s).teams = s.teams ∧
    (currentTeamEffect settings s).draftedPlayers = s.draftedPlayers ∧
    (currentTeamEffect settings s).draftHistory = s.draftHistory ∧
    (currentTeamEffect settings s).currentRound = s.currentRound ∧
    (currentTeamEffect settings s).currentPick = s.currentPick ∧
    (currentTeamEffect settings s).draftMode = s.draftMode ∧
    (currentTeamEffect settings s).snakeDraftOrder = s.snakeDraftOrder := by
  unfold currentTeamEffect
  cases hm : s.draftMode
  · simp [hm]
  · simp only [hm]
    split <;> simp [hm]

/-- The two draft modes are exhaustive. -/
theorem draftMode_cases (m : DraftMode) : m = DraftMode.auction ∨ m = DraftMode.snake := by
  cases m <;> simp

/-- Rosters only hold drafted players (a `Valid` consequence). -/
theorem roster_id_mem_drafted {settings : DraftSettings} {s : DraftState}
    (hV : Valid settings s) {t : Team} {p : Player}
    (ht : t ∈ s.teams) (hp : p ∈ t.players) : p.id ∈ s.draftedPlayers := by
  have h1 : p.id ∈ t.players.map (fun q => q.id) := List.mem_map_of_mem _ hp
  rw [hV.roster_eq t ht] at h1
  obtain ⟨r, hr, hrid⟩ := List.mem_map.mp h1
  rw [hV.drafted_eq]
  exact List.mem_map.mpr ⟨r, List.mem_of_mem_filter hr, hrid⟩

/-- Filtering out a fresh element from an append is the identity on the
old part. -/
theorem filter_append_singleton_self {l : List Nat} {x : Nat} (h : x ∉ l) :
    (l ++ [x]).filter (fun i => !(i == x)) = l := by
  rw [List.filter_append]
  have h1 : l.filter (fun i => !(i == x)) = l := by
    rw [List.filter_eq_self]
    intro a ha
    simp only [Bool.not_eq_eq_eq_not, Bool.not_true, beq_eq_false_iff_ne, ne_eq]
    intro e
    exact h (e ▸ ha)
  simp [h1]

/-- Undoing a just-committed pick restores every team exactly. -/
theorem undo_draftTeamUpd {settings : DraftSettings} {s : DraftState}
    (hV : Valid settings s) {player : Player} {playerId teamId : Nat} {amount : Int}
    (hpid : player.id = playerId) (hnd : playerId ∉ s.draftedPlayers)
    {team : Team} (ht : team ∈ s.teams) :
    undoTeamUpd settings
      { playerId := playerId, teamId := teamId,
        amount := if s.draftMode = DraftMode.auction then amount else 0,
        round := s.currentRound, pick := s.currentPick }
      (draftTeamUpd s.draftMode player teamId amount team) = team := by
  have hround1 : 1 ≤ s.currentRound := by
    rw [hV.round_eq]
    exact Nat.succ_le_succ (Nat.zero_le _)
  have hfilter : team.players.filter (fun p => !(p.id == playerId)) = team.players := by
    rw [List.filter_eq_self]
    intro p hp
    simp only [Bool.not_eq_eq_eq_not, Bool.not_true, beq_eq_false_iff_ne, ne_eq]
    intro e
    exact hnd (e ▸ roster_id_mem_drafted hV ht hp)
  by_cases hteq : (team.id == teamId) = true
  · unfold draftTeamUpd
    rw [if_pos hteq]
    unfold undoTeamUpd
    simp only
    rw [if_pos hteq]
    rw [jsOr_pos hround1]
    rcases draftMode_cases s.draftMode with hmode | hmode
    · have hle : s.currentRound ≤ settings.auctionRounds := by
        by_contra hlt
        have := hV.mode_iff.mpr (by omega)
        rw [hmode] at this
        exact DraftMode.noConfusion this
      rw [if_pos hle]
      simp only [hmode, if_pos rfl, List.filter_append, hfilter]
      simp [hpid]
    · have hlt : settings.auctionRounds < s.currentRound := hV.mode_iff.mp hmode
      rw [if_neg (by omega)]
      simp only [hmode]
      simp only [List.filter_append, hfilter]
      simp [hpid]
  · unfold draftTeamUpd undoTeamUpd
    rw [if_neg hteq]
    simp only
    rw [if_neg hteq]

/-- Claim C1: round-trip identity.  From any valid draft state, a
successful commit (the entity resolves in the catalog and is not yet
drafted) followed immediately by an undo restores the whole state —
round, pick, phase, turn order, current team, every budget and roster,
the drafted set and the history — to exactly its pre-commit value. -/
theorem claim_C1 (settings : DraftSettings) (catalog : List Player)
    (s s' : DraftState) (playerId teamId : Nat) (amount : Int)
    (hV : Valid settings s)
    (hnd : playerId ∉ s.draftedPlayers)
    (hc : commitPick settings catalog s playerId teamId amount = some s') :
    handleUndoDraft settings catalog s' = s := by
  unfold commitPick handleDraftPickCore at hc
  cases hfind : catalog.find? (fun p => p.id == playerId) with
  | none => rw [hfind] at hc; simp at hc
  | some player =>
    rw [hfind] at hc
    simp only [Option.map_some'] at hc
    rw [Option.some.injEq] at hc
    subst hc
    have hpid : player.id = playerId := find?_id_eq hfind
    have hround1 : 1 ≤ s.currentRound := by
      rw [hV.round_eq]
      exact Nat.succ_le_succ (Nat.zero_le _)
    unfold handleUndoDraft
    simp only [(currentTeamEffect_fields _ _).1, (currentTeamEffect_fields _ _).2.1,
      (currentTeamEffect_fields _ _).2.2.1, (currentTeamEffect_fields _ _).2.2.2.1,
      (currentTeamEffect_fields _ _).2.2.2.2.1,
      (modeTransitionEffect_fields _ _).1, (modeTransitionEffect_fields _ _).2.1,
      (modeTransitionEffect_fields _ _).2.2.1, (modeTransitionEffect_fields _ _).2.2.2.1,
      (modeTransitionEffect_fields _ _).2.2.2.2.1]
    simp only [List.getLast?_concat, hfind]
    have hjr : jsOr s.currentRound
        (if s.currentPick % s.teams.length = 0 then s.currentRound + 1
         else s.currentRound) = s.currentRound := jsOr_pos hround1 _
    have hjp : jsOr s.currentPick (s.currentPick + 1) = s.currentPick :=
      jsOr_pos hV.pick_pos _
    have hTeams : List.map (undoTeamUpd settings
        { playerId := playerId, teamId := teamId,
          amount := if s.draftMode = DraftMode.auction then amount else 0,
          round := s.currentRound, pick := s.currentPick })
        (List.map (draftTeamUpd s.draftMode player teamId amount) s.teams) = s.teams := by
      rw [List.map_map]
      have hcong := List.map_congr_left
        (fun t ht => undo_draftTeamUpd hV hpid hnd ht :
          ∀ t ∈ s.teams, (undoTeamUpd settings
            { playerId := playerId, teamId := teamId,
              amount := if s.draftMode = DraftMode.auction then amount else 0,
              round := s.currentRound, pick := s.currentPick } ∘
            draftTeamUpd s.draftMode player teamId amount) t = t)
      exact hcong.trans (List.map_id' _)
    rw [hjr, hjp, hTeams, filter_append_singleton_self hnd, List.dropLast_concat,
      List.length_map]
    rcases draftMode_cases s.draftMode with hmode | hmode
    · have hnlt : ¬ settings.auctionRounds < s.currentRound := by
        intro hlt
        have h2 := hV.mode_iff.mpr hlt
        rw [hmode] at h2
        exact DraftMode.noConfusion h2
      rw [if_neg hnlt, ← hV.order_auction hmode, ← hV.cur_auction hmode, ← hmode]
    · have hlt := hV.mode_iff.mp hmode
      rw [if_pos hlt, ← hV.order_snake hmode, ← hV.cur_snake hmode, ← hmode]

/-- The state produced by committing player 1 to team 1 for $35 from the
fixture initial state. -/
def wCommitted : DraftState :=
  { teams :=
      [ { wTeamA with
          budget := 165,
          players := [{ id := 1, name := "Alpha", position := "QB" }] },
        wTeamB ],
    draftedPlayers := [1],
    draftHistory := [{ playerId := 1, teamId := 1, amount := 35, round := 1, pick := 1 }],
    currentRound := 1, currentPick := 2, draftMode := .auction,
    snakeDraftOrder := [], currentDraftTeam := none }

/-- The fixture initial state is valid. -/
theorem wInit_valid : Valid wSettings wInit := by
  constructor <;> decide

/-- Claim C1 witness: committing player 1 for $35 from the fixture
initial state and undoing restores that state exactly. -/
theorem claim_C1_witness :
    handleUndoDraft wSettings wCatalog wCommitted = wInit := by
  have hc : commitPick wSettings wCatalog wInit 1 1 35 = some wCommitted := by decide
  exact claim_C1 wSettings wCatalog wInit wCommitted 1 1 35 wInit_valid (by decide) hc

/-- A commit's per-team update never changes a team's identity fields. -/
theorem draftTeamUpd_keys (mode : DraftMode) (player : Player) (teamId : Nat)
    (amount : Int) (team : Team) :
    (draftTeamUpd mode player teamId amount team).id = team.id ∧
    (draftTeamUpd mode player teamId amount team).name = team.name ∧
    (draftTeamUpd mode player teamId amount team).owner = team.owner := by
  unfold draftTeamUpd
  split <;> simp

/-- In snake mode the commit update leaves the budget untouched. -/
theorem draftTeamUpd_budget_snake (player : Player) (teamId : Nat) (amount : Int)
    (team : Team) :
    (draftTeamUpd DraftMode.snake player teamId amount team).budget = team.budget := by
  unfold draftTeamUpd
  split <;> simp

/-- The budget sort is a permutation of its input. -/
theorem sortTeams_perm (teams : List Team) :
    (sortTeamsByBudgetWithTiebreaker teams).Perm teams :=
  List.perm_insertionSort teamLE teams

/-- The budget sort is sorted in descending budget order. -/
theorem sortTeams_sorted (teams : List Team) :
    (sortTeamsByBudgetWithTiebreaker teams).Pairwise teamLE :=
  List.sorted_insertionSort teamLE teams

/-- Applying a per-team map that preserves the sort keys (id, budget,
name, owner) commutes with taking the sorted id order. -/
theorem sortTeams_map_id_invariant (l : List Team) (f : Team → Team)
    (hf : ∀ t, (f t).id = t.id ∧ (f t).budget = t.budget ∧
      (f t).name = t.name ∧ (f t).owner = t.owner) :
    (sortTeamsByBudgetWithTiebreaker (l.map f)).map (fun t => t.id) =
      (sortTeamsByBudgetWithTiebreaker l).map (fun t => t.id) := by
  have hhash : ∀ t, teamHash (f t) = teamHash t := by
    intro t
    unfold teamHash
    rw [(hf t).1, (hf t).2.2.1, (hf t).2.2.2]
  have hrel : ∀ a ∈ l, ∀ b ∈ l, teamLE a b ↔ teamLE (f a) (f b) := by
    intro a _ b _
    unfold teamLE
    rw [(hf a).2.1, (hf b).2.1, hhash a, hhash b]
  unfold sortTeamsByBudgetWithTiebreaker
  rw [← List.map_insertionSort teamLE teamLE f l hrel, List.map_map]
  exact List.map_congr_left (fun t _ => (hf t).1)

/-- How the commit advances the round: the coupling
`round = (pick − 1) / teamCount + 1` is preserved. -/
theorem round_step_eq {len pickNo round : Nat} (_hlen : 0 < len) (hp : 1 ≤ pickNo)
    (hr : round = (pickNo - 1) / len + 1) :
    (if pickNo % len = 0 then round + 1 else round) = (pickNo + 1 - 1) / len + 1 := by
  subst hr
  have hsub : pickNo + 1 - 1 = (pickNo - 1) + 1 := by omega
  rw [hsub, Nat.succ_div]
  have hdvd : len ∣ (pickNo - 1) + 1 ↔ pickNo % len = 0 := by
    have he : (pickNo - 1) + 1 = pickNo := by omega
    rw [he, Nat.dvd_iff_mod_eq_zero]
  by_cases h : pickNo % len = 0
  · rw [if_pos h, if_pos (hdvd.mpr h)]
  · rw [if_neg h, if_neg (fun hd => h (hdvd.mp hd))]

/-- Contribution of one appended record to a team's auction spending. -/
theorem biddingSpent_concat (teamId aR : Nat) (h : List PickRecord) (rec : PickRecord) :
    biddingSpent teamId aR (h ++ [rec]) =
      biddingSpent teamId aR h +
        (if (rec.teamId == teamId && decide (jsOr rec.round 1 ≤ aR)) = true
         then rec.amount else 0) := by
  unfold biddingSpent
  rw [List.filter_append]
  by_cases hp : (rec.teamId == teamId && decide (jsOr rec.round 1 ≤ aR)) = true
  · simp [hp]
  · simp [hp]

/-- Removing the last record removes exactly its contribution. -/
theorem biddingSpent_dropLast (teamId aR : Nat) (h : List PickRecord) (rec : PickRecord)
    (hlast : h.getLast? = some rec) :
    biddingSpent teamId aR h =
      biddingSpent teamId aR h.dropLast +
        (if (rec.teamId == teamId && decide (jsOr rec.round 1 ≤ aR)) = true
         then rec.amount else 0) := by
  have hdecomp : h = h.dropLast ++ [rec] := by
    rcases List.eq_nil_or_concat h with rfl | ⟨l, a, rfl⟩
    · simp at hlast
    · rw [List.concat_eq_append] at hlast ⊢
      rw [List.getLast?_concat] at hlast
      obtain rfl : a = rec := by injection hlast
      rw [List.dropLast_concat]
  conv_lhs => rw [hdecomp]
  exact biddingSpent_concat teamId aR h.dropLast rec

/-- Field characterization of a successful commit: the parts of the
state that the effects never touch. -/
theorem commitPick_char {settings : DraftSettings} {catalog : List Player}
    {s s' : DraftState} {playerId teamId : Nat} {amount : Int} {player : Player}
    (hfind : catalog.find? (fun p => p.id == playerId) = some player)
    (hc : commitPick settings catalog s playerId teamId amount = some s') :
    s'.teams = s.teams.map (draftTeamUpd s.draftMode player teamId amount) ∧
    s'.draftedPlayers = s.draftedPlayers ++ [playerId] ∧
    s'.draftHistory = s.draftHistory ++
      [{ playerId := playerId, teamId := teamId,
         amount := if s.draftMode = DraftMode.auction then amount else 0,
         round := s.currentRound, pick := s.currentPick }] ∧
    s'.currentRound =
      (if s.currentPick % s.teams.length = 0 then s.currentRound + 1
       else s.currentRound) ∧
    s'.currentPick = s.currentPick + 1 := by
  unfold commitPick handleDraftPickCore at hc
  rw [hfind] at hc
  simp only [Option.map_some'] at hc
  rw [Option.some.injEq] at hc
  subst hc
  refine ⟨?_, ?_, ?_, ?_, ?_⟩ <;>
    simp only [(currentTeamEffect_fields _ _).1, (currentTeamEffect_fields _ _).2.1,
      (currentTeamEffect_fields _ _).2.2.1, (currentTeamEffect_fields _ _).2.2.2.1,
      (currentTeamEffect_fields _ _).2.2.2.2.1,
      (modeTransitionEffect_fields _ _).1, (modeTransitionEffect_fields _ _).2.1,
      (modeTransitionEffect_fields _ _).2.2.1, (modeTransitionEffect_fields _ _).2.2.2.1,
      (modeTransitionEffect_fields _ _).2.2.2.2.1]

/-- The mode transition is a no-op while the round stays within the
auction and the mode is already auction. -/
theorem modeTransitionEffect_auction_low {settings : DraftSettings} {x : DraftState}
    (hmode : x.draftMode = DraftMode.auction)
    (hcond : ¬ settings.auctionRounds < x.currentRound) :
    modeTransitionEffect settings x = x := by
  unfold modeTransitionEffect
  rw [if_neg hcond, hmode]

/-- Entering snake mode caches the budget-sorted id order. -/
theorem modeTransitionEffect_auction_high {settings : DraftSettings} {x : DraftState}
    (hmode : x.draftMode = DraftMode.auction)
    (hcond : settings.auctionRounds < x.currentRound) :
    modeTransitionEffect settings x =
      { x with
        draftMode := DraftMode.snake,
        snakeDraftOrder := (sortTeamsByBudgetWithTiebreaker x.teams).map (fun t => t.id) } := by
  unfold modeTransitionEffect
  rw [if_pos hcond, hmode]

/-- The mode transition is a no-op when already in snake mode past the
auction rounds. -/
theorem modeTransitionEffect_snake_high {settings : DraftSettings} {x : DraftState}
    (hmode : x.draftMode = DraftMode.snake)
    (hcond : settings.auctionRounds < x.currentRound) :
    modeTransitionEffect settings x = x := by
  unfold modeTransitionEffect
  rw [if_pos hcond, hmode]

/-- In auction mode the current-team effect clears the team on the
clock. -/
theorem currentTeamEffect_auction {settings : DraftSettings} {x : DraftState}
    (hmode : x.draftMode = DraftMode.auction) :
    currentTeamEffect settings x = { x with currentDraftTeam := none } := by
  unfold currentTeamEffect
  rw [hmode]

/-- In snake mode, with a non-empty order and team list, the
current-team effect recomputes the team on the clock. -/
theorem currentTeamEffect_snake {settings : DraftSettings} {x : DraftState}
    (hmode : x.draftMode = DraftMode.snake)
    (hord : x.snakeDraftOrder ≠ []) (hteams : x.teams ≠ []) :
    currentTeamEffect settings x =
      { x with currentDraftTeam :=
          (snakeCurrentTeam x.snakeDraftOrder x.teams.length settings.auctionRounds
            x.currentRound x.currentPick) } := by
  unfold currentTeamEffect
  rw [hmode]
  rw [if_neg (by simp [hord, hteams])]

/-- The sorted id order of a non-empty team list is non-empty. -/
theorem sortTeams_map_id_ne_nil {l : List Team} (h : l ≠ []) :
    (sortTeamsByBudgetWithTiebreaker l).map (fun t => t.id) ≠ [] := by
  intro hcon
  apply h
  have hlen := congrArg List.length hcon
  rw [List.length_map, (sortTeams_perm l).length_eq] at hlen
  exact List.length_eq_zero.mp hlen

/-- Both effects after a commit that crosses into snake mode. -/
theorem effects_auction_high {settings : DraftSettings} {x : DraftState}
    (hmode : x.draftMode = DraftMode.auction)
    (hcond : settings.auctionRounds < x.currentRound) (hne : x.teams ≠ []) :
    currentTeamEffect settings (modeTransitionEffect settings x) =
      { x with
        draftMode := DraftMode.snake,
        snakeDraftOrder :=
          (sortTeamsByBudgetWithTiebreaker x.teams).map (fun t => t.id),
        currentDraftTeam :=
          (snakeCurrentTeam
            ((sortTeamsByBudgetWithTiebreaker x.teams).map (fun t => t.id))
            x.teams.length settings.auctionRounds x.currentRound x.currentPick) } := by
  rw [modeTransitionEffect_auction_high hmode hcond]
  unfold currentTeamEffect
  dsimp only
  rw [if_neg (by simp [List.isEmpty_iff, hne, sortTeams_map_id_ne_nil hne])]

/-- Both effects after a commit that stays within the auction. -/
theorem effects_auction_low {settings : DraftSettings} {x : DraftState}
    (hmode : x.draftMode = DraftMode.auction)
    (hcond : ¬ settings.auctionRounds < x.currentRound) :
    currentTeamEffect settings (modeTransitionEffect settings x) =
      { x with currentDraftTeam := none } := by
  rw [modeTransitionEffect_auction_low hmode hcond]
  exact currentTeamEffect_auction hmode

/-- Both effects after a commit made in snake mode. -/
theorem effects_snake_high {settings : DraftSettings} {x : DraftState}
    (hmode : x.draftMode = DraftMode.snake)
    (hcond : settings.auctionRounds < x.currentRound)
    (hne : x.teams ≠ []) (hord : x.snakeDraftOrder ≠ []) :
    currentTeamEffect settings (modeTransitionEffect settings x) =
      { x with currentDraftTeam :=
          (snakeCurrentTeam x.snakeDraftOrder x.teams.length settings.auctionRounds
            x.currentRound x.currentPick) } := by
  rw [modeTransitionEffect_snake_high hmode hcond]
  exact currentTeamEffect_snake hmode hord hne

/-- Explicit result of a commit in auction mode that stays in the
auction. -/
theorem commitPick_eq_auction_low {settings : DraftSettings} {catalog : List Player}
    {s : DraftState} {playerId teamId : Nat} {amount : Int} {player : Player}
    (hfind : catalog.find? (fun p => p.id == playerId) = some player)
    (hmode : s.draftMode = DraftMode.auction)
    (hcond : ¬ settings.auctionRounds <
      (if s.currentPick % s.teams.length = 0 then s.currentRound + 1
       else s.currentRound)) :
    commitPick settings catalog s playerId teamId amount = some
      { teams := s.teams.map (draftTeamUpd DraftMode.auction player teamId amount),
        draftedPlayers := s.draftedPlayers ++ [playerId],
        draftHistory := s.draftHistory ++
          [{ playerId := playerId, teamId := teamId, amount := amount,
             round := s.currentRound, pick := s.currentPick }],
        currentRound :=
          if s.currentPick % s.teams.length = 0 then s.currentRound + 1
          else s.currentRound,
        currentPick := s.currentPick + 1,
        draftMode := DraftMode.auction,
        snakeDraftOrder := s.snakeDraftOrder,
        currentDraftTeam := none } := by
  obtain ⟨ts, dp, dh, cr, cp, dm, so, cdt⟩ := s
  dsimp only at *
  subst hmode
  unfold commitPick handleDraftPickCore
  rw [hfind]
  simp only [Option.map_some', Option.some.injEq]
  unfold modeTransitionEffect
  dsimp only
  rw [if_neg hcond]
  unfold currentTeamEffect
  dsimp only
  simp

/-- Explicit result of a commit that finishes the auction rounds and
transitions to snake mode. -/
theorem commitPick_eq_auction_high {settings : DraftSettings} {catalog : List Player}
    {s : DraftState} {playerId teamId : Nat} {amount : Int} {player : Player}
    (hfind : catalog.find? (fun p => p.id == playerId) = some player)
    (hmode : s.draftMode = DraftMode.auction)
    (hcond : settings.auctionRounds <
      (if s.currentPick % s.teams.length = 0 then s.currentRound + 1
       else s.currentRound))
    (hne : s.teams ≠ []) :
    commitPick settings catalog s playerId teamId amount = some
      { teams := s.teams.map (draftTeamUpd DraftMode.auction player teamId amount),
        draftedPlayers := s.draftedPlayers ++ [playerId],
        draftHistory := s.draftHistory ++
          [{ playerId := playerId, teamId := teamId, amount := amount,
             round := s.currentRound, pick := s.currentPick }],
        currentRound :=
          if s.currentPick % s.teams.length = 0 then s.currentRound + 1
          else s.currentRound,
        currentPick := s.currentPick + 1,
        draftMode := DraftMode.snake,
        snakeDraftOrder :=
          (sortTeamsByBudgetWithTiebreaker
            (s.teams.map (draftTeamUpd DraftMode.auction player teamId amount))).map
            (fun t => t.id),
        currentDraftTeam :=
          (snakeCurrentTeam
            ((sortTeamsByBudgetWithTiebreaker
              (s.teams.map (draftTeamUpd DraftMode.auction player teamId amount))).map
              (fun t => t.id))
            (s.teams.map (draftTeamUpd DraftMode.auction player teamId amount)).length
            settings.auctionRounds
            (if s.currentPick % s.teams.length = 0 then s.currentRound + 1
             else s.currentRound)
            (s.currentPick + 1)) } := by
  obtain ⟨ts, dp, dh, cr, cp, dm, so, cdt⟩ := s
  dsimp only at *
  subst hmode
  have hne2 : ts.map (draftTeamUpd DraftMode.auction player teamId amount) ≠ [] := by
    simpa using hne
  unfold commitPick handleDraftPickCore
  rw [hfind]
  simp only [Option.map_some', Option.some.injEq]
  unfold modeTransitionEffect
  dsimp only
  rw [if_pos hcond]
  unfold currentTeamEffect
  dsimp only
  rw [if_neg (by simp [List.isEmpty_iff, hne2, sortTeams_map_id_ne_nil hne2])]
  simp

/-- Explicit result of a commit made in snake mode. -/
theorem commitPick_eq_snake {settings : DraftSettings} {catalog : List Player}
    {s : DraftState} {playerId teamId : Nat} {amount : Int} {player : Player}
    (hfind : catalog.find? (fun p => p.id == playerId) = some player)
    (hmode : s.draftMode = DraftMode.snake)
    (hcond : settings.auctionRounds <
      (if s.currentPick % s.teams.length = 0 then s.currentRound + 1
       else s.currentRound))
    (hne : s.teams ≠ []) (hord : s.snakeDraftOrder ≠ []) :
    commitPick settings catalog s playerId teamId amount = some
      { teams := s.teams.map (draftTeamUpd DraftMode.snake player teamId amount),
        draftedPlayers := s.draftedPlayers ++ [playerId],
        draftHistory := s.draftHistory ++
          [{ playerId := playerId, teamId := teamId, amount := 0,
             round := s.currentRound, pick := s.currentPick }],
        currentRound :=
          if s.currentPick % s.teams.length = 0 then s.currentRound + 1
          else s.currentRound,
        currentPick := s.currentPick + 1,
        draftMode := DraftMode.snake,
        snakeDraftOrder := s.snakeDraftOrder,
        currentDraftTeam :=
          (snakeCurrentTeam s.snakeDraftOrder
            (s.teams.map (draftTeamUpd DraftMode.snake player teamId amount)).length
            settings.auctionRounds
            (if s.currentPick % s.teams.length = 0 then s.currentRound + 1
             else s.currentRound)
            (s.currentPick + 1)) } := by
  obtain ⟨ts, dp, dh, cr, cp, dm, so, cdt⟩ := s
  dsimp only at *
  subst hmode
  unfold commitPick handleDraftPickCore
  rw [hfind]
  simp only [Option.map_some', Option.some.injEq]
  unfold modeTransitionEffect
  dsimp only
  rw [if_pos hcond]
  unfold currentTeamEffect
  dsimp only
  rw [if_neg (by simp [List.isEmpty_iff, hne, hord])]
  simp

/-- The commit update does not change the id sequence of the team
list. -/
theorem draftTeamUpd_map_ids (m : DraftMode) (player : Player) (teamId : Nat)
    (amount : Int) (l : List Team) :
    (l.map (draftTeamUpd m player teamId amount)).map (fun t => t.id) =
      l.map (fun t => t.id) := by
  rw [List.map_map]
  exact List.map_congr_left
    (fun t _ => (draftTeamUpd_keys m player teamId amount t).1)

/-- Appending a fresh element preserves distinctness. -/
theorem nodup_concat_of_not_mem {l : List Nat} {x : Nat}
    (hl : l.Nodup) (hx : x ∉ l) : (l ++ [x]).Nodup := by
  rw [List.nodup_append]
  exact ⟨hl, List.nodup_singleton x, by simpa using hx⟩

/-- The roster/history correspondence survives a commit. -/
theorem roster_eq_commit {m : DraftMode} {player : Player} {playerId teamId : Nat}
    {amount recAmt : Int} {rnd pk : Nat} {teams : List Team} {hist : List PickRecord}
    (hpid : player.id = playerId)
    (hro : ∀ t ∈ teams, t.players.map (fun p => p.id) =
      (hist.filter (fun r => r.teamId == t.id)).map (fun r => r.playerId)) :
    ∀ t' ∈ teams.map (draftTeamUpd m player teamId amount),
      t'.players.map (fun p => p.id) =
        ((hist ++ [({ playerId := playerId, teamId := teamId, amount := recAmt,
                      round := rnd, pick := pk } : PickRecord)]).filter
          (fun r => r.teamId == t'.id)).map (fun r => r.playerId) := by
  intro t' ht'
  obtain ⟨t, ht, rfl⟩ := List.mem_map.mp ht'
  unfold draftTeamUpd
  by_cases hid : (t.id == teamId) = true
  · have hid' : t.id = teamId := by simpa using hid
    rw [if_pos hid]
    dsimp only
    rw [List.filter_append, List.map_append, List.map_append]
    congr 1
    · exact hro t ht
    · simp [hid', hpid]
  · have hid' : ¬ t.id = teamId := by simpa using hid
    rw [if_neg hid]
    rw [List.filter_append]
    have hne2 : ¬ teamId = t.id := fun h => hid' h.symm
    have hrecno : ((([{ playerId := playerId, teamId := teamId, amount := recAmt,
                        round := rnd, pick := pk }] : List PickRecord)).filter
          (fun r => r.teamId == t.id)) = [] := by
      simp [hne2]
    rw [hrecno, List.append_nil]
    exact hro t ht

/-- Budget conservation survives a commit: the appended record's
contribution matches the charge applied to its team. -/
theorem budget_eq_commit {settings : DraftSettings} {player : Player}
    {playerId teamId : Nat} {amount recAmt : Int} {m : DraftMode} {rnd pk : Nat}
    {teams : List Team} {hist : List PickRecord}
    (hbud : ∀ t ∈ teams, t.budget =
      settings.auctionBudget - biddingSpent t.id settings.auctionRounds hist)
    (hcharge : ∀ t ∈ teams, (draftTeamUpd m player teamId amount t).budget =
      t.budget - (if ((teamId == t.id) && decide (jsOr rnd 1 ≤ settings.auctionRounds)) = true
        then recAmt else 0)) :
    ∀ t' ∈ teams.map (draftTeamUpd m player teamId amount),
      t'.budget = settings.auctionBudget -
        biddingSpent t'.id settings.auctionRounds
          (hist ++ [({ playerId := playerId, teamId := teamId, amount := recAmt,
                       round := rnd, pick := pk } : PickRecord)]) := by
  intro t' ht'
  obtain ⟨t, ht, rfl⟩ := List.mem_map.mp ht'
  have hidt : (draftTeamUpd m player teamId amount t).id = t.id :=
    (draftTeamUpd_keys m player teamId amount t).1
  rw [hidt, biddingSpent_concat, hcharge t ht, hbud t ht]
  dsimp only
  by_cases hp : ((teamId == t.id) && decide (jsOr rnd 1 ≤ settings.auctionRounds)) = true
  · rw [if_pos hp]
    ring
  · rw [if_neg hp]
    ring

/-- A commit made through the application's command surface preserves
the `Valid` invariant. -/
theorem valid_commit {settings : DraftSettings} {catalog : List Player}
    {s s' : DraftState} {playerId teamId : Nat} {amount : Int}
    (hV : Valid settings s) (hnd : playerId ∉ s.draftedPlayers)
    (hamt : s.draftMode = DraftMode.auction →
      0 ≤ amount ∧ ∀ t ∈ s.teams, t.id = teamId → amount ≤ t.budget)
    (hc : commitPick settings catalog s playerId teamId amount = some s') :
    Valid settings s' := by
  have hlen : 0 < s.teams.length := List.length_pos.mpr hV.teams_ne
  have hr1 : 1 ≤ s.currentRound := by
    rw [hV.round_eq]
    exact Nat.succ_le_succ (Nat.zero_le _)
  rcases hfind : catalog.find? (fun p => p.id == playerId) with _ | player
  · exfalso
    unfold commitPick handleDraftPickCore at hc
    rw [hfind] at hc
    simp at hc
  · have hpid : player.id = playerId := find?_id_eq hfind
    rcases draftMode_cases s.draftMode with hmode | hmode
    · have hle : s.currentRound ≤ settings.auctionRounds := by
        by_contra hgt
        have h2 := hV.mode_iff.mpr (by omega)
        rw [hmode] at h2
        exact DraftMode.noConfusion h2
      obtain ⟨hamt0, hamtle⟩ := hamt hmode
      have hcharge : ∀ t ∈ s.teams,
          (draftTeamUpd DraftMode.auction player teamId amount t).budget =
            t.budget - (if ((teamId == t.id) &&
              decide (jsOr s.currentRound 1 ≤ settings.auctionRounds)) = true
              then amount else 0) := by
        intro t _
        unfold draftTeamUpd
        by_cases hid : (t.id == teamId) = true
        · have hid2 : t.id = teamId := by simpa using hid
          rw [if_pos hid]
          have hcnd : ((teamId == t.id) &&
              decide (jsOr s.currentRound 1 ≤ settings.auctionRounds)) = true := by
            simp [hid2, jsOr_pos hr1, hle]
          rw [hcnd]
          simp
        · have hid2 : ¬ t.id = teamId := by simpa using hid
          have hne2 : ¬ teamId = t.id := fun h => hid2 h.symm
          rw [if_neg hid]
          have hcnd : ((teamId == t.id) &&
              decide (jsOr s.currentRound 1 ≤ settings.auctionRounds)) = false := by
            simp [hne2]
          rw [hcnd]
          simp
      have hnn : ∀ t' ∈ s.teams.map (draftTeamUpd DraftMode.auction player teamId amount),
          0 ≤ t'.budget := by
        intro t' ht'
        obtain ⟨t, ht, rfl⟩ := List.mem_map.mp ht'
        unfold draftTeamUpd
        by_cases hid : (t.id == teamId) = true
        · rw [if_pos hid]
          have hle2 := hamtle t ht (by simpa using hid)
          dsimp only
          rw [if_pos rfl]
          omega
        · rw [if_neg hid]
          exact hV.budget_nonneg t ht
      have hrec : ∀ r ∈ s.draftHistory ++
          [({ playerId := playerId, teamId := teamId, amount := amount,
              round := s.currentRound, pick := s.currentPick } : PickRecord)],
          1 ≤ r.round ∧ 1 ≤ r.pick ∧ r.round = (r.pick - 1) / s.teams.length + 1 ∧
          0 ≤ r.amount ∧ (settings.auctionRounds < r.round → r.amount = 0) := by
        intro r hr
        rcases List.mem_append.mp hr with hr | hr
        · exact hV.rec_ok r hr
        · simp only [List.mem_singleton] at hr
          subst hr
          refine ⟨hr1, hV.pick_pos, hV.round_eq, hamt0, ?_⟩
          intro hgt
          dsimp only at hgt
          omega
      by_cases hcond : settings.auctionRounds <
          (if s.currentPick % s.teams.length = 0 then s.currentRound + 1
           else s.currentRound)
      · rw [commitPick_eq_auction_high hfind hmode hcond hV.teams_ne] at hc
        rw [Option.some.injEq] at hc
        subst hc
        refine ⟨?_, ?_, ?_, ?_, ?_, ?_, ?_, ?_, ?_, ?_, ?_, ?_, ?_, ?_, ?_⟩
        · simpa using hV.teams_ne
        · dsimp only
          rw [draftTeamUpd_map_ids]
          exact hV.ids_nodup
        · exact Nat.succ_le_succ (Nat.zero_le _)
        · dsimp only
          rw [List.length_map]
          exact round_step_eq hlen hV.pick_pos hV.round_eq
        · simpa using hcond
        · exact fun _ => rfl
        · exact fun h => DraftMode.noConfusion h
        · exact fun _ => rfl
        · exact fun h => DraftMode.noConfusion h
        · dsimp only
          rw [hV.drafted_eq, List.map_append]
          rfl
        · dsimp only
          rw [List.map_append]
          exact nodup_concat_of_not_mem hV.hist_nodup (hV.drafted_eq ▸ hnd)
        · exact roster_eq_commit hpid hV.roster_eq
        · exact budget_eq_commit hV.budget_eq hcharge
        · exact hnn
        · dsimp only
          rw [List.length_map]
          exact hrec
      · rw [commitPick_eq_auction_low hfind hmode hcond] at hc
        rw [Option.some.injEq] at hc
        subst hc
        refine ⟨?_, ?_, ?_, ?_, ?_, ?_, ?_, ?_, ?_, ?_, ?_, ?_, ?_, ?_, ?_⟩
        · simpa using hV.teams_ne
        · dsimp only
          rw [draftTeamUpd_map_ids]
          exact hV.ids_nodup
        · exact Nat.succ_le_succ (Nat.zero_le _)
        · dsimp only
          rw [List.length_map]
          exact round_step_eq hlen hV.pick_pos hV.round_eq
        · simpa using hcond
        · exact fun h => DraftMode.noConfusion h
        · exact fun _ => hV.order_auction hmode
        · exact fun h => DraftMode.noConfusion h
        · exact fun _ => rfl
        · dsimp only
          rw [hV.drafted_eq, List.map_append]
          rfl
        · dsimp only
          rw [List.map_append]
          exact nodup_concat_of_not_mem hV.hist_nodup (hV.drafted_eq ▸ hnd)
        · exact roster_eq_commit hpid hV.roster_eq
        · exact budget_eq_commit hV.budget_eq hcharge
        · exact hnn
        · dsimp only
          rw [List.length_map]
          exact hrec
    · have hlt : settings.auctionRounds < s.currentRound := hV.mode_iff.mp hmode
      have hcond : settings.auctionRounds <
          (if s.currentPick % s.teams.length = 0 then s.currentRound + 1
           else s.currentRound) := by
        split <;> omega
      have hordne : s.snakeDraftOrder ≠ [] := by
        rw [hV.order_snake hmode]
        exact sortTeams_map_id_ne_nil hV.teams_ne
      have hkeys : ∀ t, (draftTeamUpd DraftMode.snake player teamId amount t).id = t.id ∧
          (draftTeamUpd DraftMode.snake player teamId amount t).budget = t.budget ∧
          (draftTeamUpd DraftMode.snake player teamId amount t).name = t.name ∧
          (draftTeamUpd DraftMode.snake player teamId amount t).owner = t.owner := by
        intro t
        obtain ⟨h1, h2, h3⟩ := draftTeamUpd_keys DraftMode.snake player teamId amount t
        exact ⟨h1, draftTeamUpd_budget_snake player teamId amount t, h2, h3⟩
      rw [commitPick_eq_snake hfind hmode hcond hV.teams_ne hordne] at hc
      rw [Option.some.injEq] at hc
      subst hc
      have hcharge : ∀ t ∈ s.teams,
          (draftTeamUpd DraftMode.snake player teamId amount t).budget =
            t.budget - (if ((teamId == t.id) &&
              decide (jsOr s.currentRound 1 ≤ settings.auctionRounds)) = true
              then (0 : Int) else 0) := by
        intro t _
        rw [draftTeamUpd_budget_snake]
        split <;> ring
      refine ⟨?_, ?_, ?_, ?_, ?_, ?_, ?_, ?_, ?_, ?_, ?_, ?_, ?_, ?_, ?_⟩
      · simpa using hV.teams_ne
      · dsimp only
        rw [draftTeamUpd_map_ids]
        exact hV.ids_nodup
      · exact Nat.succ_le_succ (Nat.zero_le _)
      · dsimp only
        rw [List.length_map]
        exact round_step_eq hlen hV.pick_pos hV.round_eq
      · simpa using hcond
      · intro _
        dsimp only
        rw [hV.order_snake hmode, sortTeams_map_id_invariant s.teams _ hkeys]
      · exact fun h => DraftMode.noConfusion h
      · exact fun _ => rfl
      · exact fun h => DraftMode.noConfusion h
      · dsimp only
        rw [hV.drafted_eq, List.map_append]
        rfl
      · dsimp only
        rw [List.map_append]
        exact nodup_concat_of_not_mem hV.hist_nodup (hV.drafted_eq ▸ hnd)
      · exact roster_eq_commit hpid hV.roster_eq
      · exact budget_eq_commit hV.budget_eq hcharge
      · intro t2 ht2
        obtain ⟨t, ht, rfl⟩ := List.mem_map.mp ht2
        rw [draftTeamUpd_budget_snake]
        exact hV.budget_nonneg t ht
      · dsimp only
        rw [List.length_map]
        intro r hr
        rcases List.mem_append.mp hr with hr | hr
        · exact hV.rec_ok r hr
        · simp only [List.mem_singleton] at hr
          subst hr
          exact ⟨hr1, hV.pick_pos, hV.round_eq, le_refl 0, fun _ => rfl⟩

/-- The undo update never changes a team's identity fields. -/
theorem undoTeamUpd_keys (settings : DraftSettings) (lastPick : PickRecord) (team : Team) :
    (undoTeamUpd settings lastPick team).id = team.id ∧
    (undoTeamUpd settings lastPick team).name = team.name ∧
    (undoTeamUpd settings lastPick team).owner = team.owner := by
  unfold undoTeamUpd
  split <;> simp

/-- A list with a last element is its front part plus that element. -/
theorem getLast?_decomp {l : List PickRecord} {rec : PickRecord}
    (hlast : l.getLast? = some rec) : l = l.dropLast ++ [rec] := by
  rcases List.eq_nil_or_concat l with rfl | ⟨l2, a, rfl⟩
  · simp at hlast
  · rw [List.concat_eq_append] at hlast ⊢
    rw [List.getLast?_concat] at hlast
    obtain rfl : a = rec := by injection hlast
    rw [List.dropLast_concat]

/-- Taking ids commutes with filtering a roster by id. -/
theorem map_filter_ids (l : List Player) (x : Nat) :
    ((l.filter (fun p => !(p.id == x))).map (fun p => p.id)) =
      (l.map (fun p => p.id)).filter (fun i => !(i == x)) := by
  induction l with
  | nil => rfl
  | cons p rest ih =>
    by_cases hp : (p.id == x) = true
    · simp only [List.filter_cons, List.map_cons, hp, Bool.not_true, if_false]
      simpa using ih
    · have hp2 : (!(p.id == x)) = true := by simp [hp]
      simp only [List.filter_cons, List.map_cons, hp2, if_true]
      simp only [List.map_cons, ih]

/-- An undo preserves the `Valid` invariant. -/
theorem valid_undo {settings : DraftSettings} {catalog : List Player} {s : DraftState}
    (hV : Valid settings s) : Valid settings (handleUndoDraft settings catalog s) := by
  cases hlast : s.draftHistory.getLast? with
  | none =>
    unfold handleUndoDraft
    simp only [hlast]
    exact hV
  | some rec =>
    cases hfind : catalog.find? (fun p => p.id == rec.playerId) with
    | none =>
      unfold handleUndoDraft
      simp only [hlast, hfind]
      exact hV
    | some player =>
      have hdecomp := getLast?_decomp hlast
      have hmem : rec ∈ s.draftHistory := by
        rw [hdecomp]
        exact List.mem_append_right _ (List.mem_singleton_self rec)
      obtain ⟨hrr1, hrp1, hrcoup, hramt, hrsnake0⟩ := hV.rec_ok rec hmem
      have hids : ∀ l : List Team,
          (l.map (undoTeamUpd settings rec)).map (fun t => t.id) =
            l.map (fun t => t.id) := by
        intro l
        rw [List.map_map]
        exact List.map_congr_left (fun t _ => (undoTeamUpd_keys settings rec t).1)
      have hmapdecomp : s.draftHistory.map (fun r => r.playerId) =
          (s.draftHistory.dropLast.map (fun r => r.playerId)) ++ [rec.playerId] := by
        conv_lhs => rw [hdecomp]
        rw [List.map_append]
        rfl
      have hpid_not : rec.playerId ∉ s.draftHistory.dropLast.map (fun r => r.playerId) := by
        have h2 := hV.hist_nodup
        rw [hmapdecomp, List.nodup_append] at h2
        intro hmem2
        exact h2.2.2 hmem2 (List.mem_singleton_self _)
      have hdrafted : s.draftedPlayers.filter (fun i => !(i == rec.playerId)) =
          s.draftHistory.dropLast.map (fun r => r.playerId) := by
        rw [hV.drafted_eq, hmapdecomp]
        exact filter_append_singleton_self hpid_not
      have hhist_nodup2 : (s.draftHistory.dropLast.map (fun r => r.playerId)).Nodup := by
        have h2 := hV.hist_nodup
        rw [hmapdecomp, List.nodup_append] at h2
        exact h2.1
      have hroster : ∀ t' ∈ s.teams.map (undoTeamUpd settings rec),
          t'.players.map (fun p => p.id) =
            (s.draftHistory.dropLast.filter (fun r => r.teamId == t'.id)).map
              (fun r => r.playerId) := by
        intro t' ht'
        obtain ⟨t, ht, rfl⟩ := List.mem_map.mp ht'
        rw [(undoTeamUpd_keys settings rec t).1]
        unfold undoTeamUpd
        by_cases hid : (t.id == rec.teamId) = true
        · have hid2 : t.id = rec.teamId := by simpa using hid
          have hrid : (rec.teamId == t.id) = true := by simp [hid2]
          rw [if_pos hid]
          dsimp only
          rw [map_filter_ids, hV.roster_eq t ht]
          conv_lhs => rw [hdecomp]
          rw [List.filter_append, List.map_append]
          have hfrec : (([rec].filter (fun r => r.teamId == t.id)).map
              (fun r => r.playerId)) = [rec.playerId] := by
            simp [hrid]
          rw [hfrec]
          have hsub : ((s.draftHistory.dropLast.filter (fun r => r.teamId == t.id)).map
              (fun r => r.playerId)).Sublist
                (s.draftHistory.dropLast.map (fun r => r.playerId)) :=
            List.Sublist.map _ (List.filter_sublist _)
          have hnotmem : rec.playerId ∉
              ((s.draftHistory.dropLast.filter (fun r => r.teamId == t.id)).map
                (fun r => r.playerId)) :=
            fun hmem3 => hpid_not (hsub.mem hmem3)
          exact filter_append_singleton_self hnotmem
        · have hid2 : ¬ t.id = rec.teamId := by simpa using hid
          have hne3 : ¬ rec.teamId = t.id := fun h2 => hid2 h2.symm
          have hrid : (rec.teamId == t.id) = false := by
            simp [hne3]
          rw [if_neg hid]
          rw [hV.roster_eq t ht]
          conv_lhs => rw [hdecomp]
          rw [List.filter_append]
          have hfrec : ([rec].filter (fun r => r.teamId == t.id)) = [] := by
            simp [hrid]
          rw [hfrec, List.append_nil]
      have hbudget : ∀ t' ∈ s.teams.map (undoTeamUpd settings rec),
          t'.budget = settings.auctionBudget -
            biddingSpent t'.id settings.auctionRounds s.draftHistory.dropLast := by
        intro t' ht'
        obtain ⟨t, ht, rfl⟩ := List.mem_map.mp ht'
        rw [(undoTeamUpd_keys settings rec t).1]
        have hspent := biddingSpent_dropLast t.id settings.auctionRounds
          s.draftHistory rec hlast
        unfold undoTeamUpd
        by_cases hid : (t.id == rec.teamId) = true
        · have hid2 : t.id = rec.teamId := by simpa using hid
          have hrid : (rec.teamId == t.id) = true := by simp [hid2]
          rw [if_pos hid]
          dsimp only
          rw [hV.budget_eq t ht, hspent, hrid]
          by_cases hcnd : jsOr rec.round 1 ≤ settings.auctionRounds
          · rw [if_pos hcnd]
            rw [if_pos (show (true &&
                decide (jsOr rec.round 1 ≤ settings.auctionRounds)) = true by
              simp [hcnd])]
            ring
          · rw [if_neg hcnd]
            rw [if_neg (show ¬ (true &&
                decide (jsOr rec.round 1 ≤ settings.auctionRounds)) = true by
              simp [hcnd])]
            ring
        · have hid2 : ¬ t.id = rec.teamId := by simpa using hid
          have hne3 : ¬ rec.teamId = t.id := fun h2 => hid2 h2.symm
          have hrid : (rec.teamId == t.id) = false := by
            simp [hne3]
          rw [if_neg hid, hV.budget_eq t ht, hspent, hrid]
          simp
      have hnn : ∀ t' ∈ s.teams.map (undoTeamUpd settings rec), 0 ≤ t'.budget := by
        intro t' ht'
        obtain ⟨t, ht, rfl⟩ := List.mem_map.mp ht'
        have hb := hV.budget_nonneg t ht
        unfold undoTeamUpd
        by_cases hid : (t.id == rec.teamId) = true
        · rw [if_pos hid]
          dsimp only
          split
          · omega
          · exact hb
        · rw [if_neg hid]
          exact hb
      have hrec2 : ∀ r ∈ s.draftHistory.dropLast,
          1 ≤ r.round ∧ 1 ≤ r.pick ∧
          r.round = (r.pick - 1) / (s.teams.map (undoTeamUpd settings rec)).length + 1 ∧
          0 ≤ r.amount ∧ (settings.auctionRounds < r.round → r.amount = 0) := by
        intro r hr
        have hr2 : r ∈ s.draftHistory := by
          rw [hdecomp]
          exact List.mem_append_left _ hr
        rw [List.length_map]
        exact hV.rec_ok r hr2
      unfold handleUndoDraft
      simp only [hlast, hfind]
      rw [jsOr_pos hrr1, jsOr_pos hrp1]
      by_cases hcond : settings.auctionRounds < rec.round
      · rw [if_pos hcond]
        refine ⟨?_, ?_, ?_, ?_, ?_, ?_, ?_, ?_, ?_, ?_, ?_, ?_, ?_, ?_, ?_⟩
        · simpa using hV.teams_ne
        · exact (hids s.teams).symm ▸ hV.ids_nodup
        · exact hrp1
        · dsimp only
          rw [List.length_map]
          exact hrcoup
        · simpa using hcond
        · exact fun _ => rfl
        · exact fun h => DraftMode.noConfusion h
        · intro _
          dsimp only
          rw [List.length_map]
        · exact fun h => DraftMode.noConfusion h
        · exact hdrafted
        · exact hdrafted ▸ (hdrafted.symm ▸ hhist_nodup2)
        · exact hroster
        · exact hbudget
        · exact hnn
        · exact hrec2
      · rw [if_neg hcond]
        refine ⟨?_, ?_, ?_, ?_, ?_, ?_, ?_, ?_, ?_, ?_, ?_, ?_, ?_, ?_, ?_⟩
        · simpa using hV.teams_ne
        · exact (hids s.teams).symm ▸ hV.ids_nodup
        · exact hrp1
        · dsimp only
          rw [List.length_map]
          exact hrcoup
        · constructor
          · intro h2
            exact absurd h2 (by simp)
          · intro h2
            dsimp only at h2
            exact absurd h2 hcond
        · exact fun h => DraftMode.noConfusion h
        · exact fun _ => rfl
        · exact fun h => DraftMode.noConfusion h
        · exact fun _ => rfl
        · exact hdrafted
        · exact hdrafted ▸ (hdrafted.symm ▸ hhist_nodup2)
        · exact hroster
        · exact hbudget
        · exact hnn
        · exact hrec2

/-- A reset preserves the `Valid` invariant. -/
theorem valid_reset {settings : DraftSettings} {s : DraftState}
    (hV : Valid settings s) (hA : 0 ≤ settings.auctionBudget)
    (haR : 1 ≤ settings.auctionRounds) :
    Valid settings (handleResetDraft settings s) := by
  refine ⟨?_, ?_, ?_, ?_, ?_, ?_, ?_, ?_, ?_, ?_, ?_, ?_, ?_, ?_, ?_⟩
  · dsimp only [handleResetDraft]
    simpa using hV.teams_ne
  · dsimp only [handleResetDraft]
    rw [List.map_map]
    exact (List.map_congr_left (fun t _ => rfl)).symm ▸ hV.ids_nodup
  · exact le_refl 1
  · simp [handleResetDraft]
  · constructor
    · intro h2
      exact absurd h2 (by simp [handleResetDraft])
    · intro h2
      dsimp only [handleResetDraft] at h2
      omega
  · exact fun h => DraftMode.noConfusion h
  · exact fun _ => rfl
  · exact fun h => DraftMode.noConfusion h
  · exact fun _ => rfl
  · rfl
  · exact List.nodup_nil
  · intro t' ht'
    dsimp only [handleResetDraft] at ht'
    obtain ⟨t, _, rfl⟩ := List.mem_map.mp ht'
    rfl
  · intro t' ht'
    dsimp only [handleResetDraft] at ht' ⊢
    obtain ⟨t, _, rfl⟩ := List.mem_map.mp ht'
    dsimp only
    rw [show biddingSpent t.id settings.auctionRounds [] = 0 from rfl]
    ring
  · intro t' ht'
    dsimp only [handleResetDraft] at ht'
    obtain ⟨t, _, rfl⟩ := List.mem_map.mp ht'
    exact hA
  · intro r hr
    exact absurd hr (List.not_mem_nil r)

/-- The initial state is valid. -/
theorem valid_init {settings : DraftSettings} {s : DraftState}
    (hinit : IsInitial settings s) (hA : 0 ≤ settings.auctionBudget)
    (haR : 1 ≤ settings.auctionRounds) : Valid settings s := by
  obtain ⟨hne, hteams, hnodup, hdp, hdh, hcr, hcp, hdm, hso, hcdt⟩ := hinit
  refine ⟨hne, hnodup, ?_, ?_, ?_, ?_, ?_, ?_, ?_, ?_, ?_, ?_, ?_, ?_, ?_⟩
  · rw [hcp]
  · rw [hcr, hcp]
    simp
  · rw [hdm, hcr]
    constructor
    · intro h2
      exact absurd h2 (by simp)
    · intro h2
      omega
  · intro h2
    rw [hdm] at h2
    exact DraftMode.noConfusion h2
  · exact fun _ => hso
  · intro h2
    rw [hdm] at h2
    exact DraftMode.noConfusion h2
  · exact fun _ => hcdt
  · rw [hdp, hdh]
    rfl
  · rw [hdh]
    exact List.nodup_nil
  · intro t ht
    rw [(hteams t ht).1, hdh]
    rfl
  · intro t ht
    rw [(hteams t ht).2, hdh]
    rw [show biddingSpent t.id settings.auctionRounds [] = 0 from rfl]
    ring
  · intro t ht
    rw [(hteams t ht).2]
    exact hA
  · intro r hr
    rw [hdh] at hr
    exact absurd hr (List.not_mem_nil r)

/-- Every engine transition preserves the `Valid` invariant. -/
theorem valid_step {settings : DraftSettings} {catalog : List Player}
    {s s' : DraftState} (hA : 0 ≤ settings.auctionBudget)
    (haR : 1 ≤ settings.auctionRounds) (hV : Valid settings s)
    (hstep : Step settings catalog s s') : Valid settings s' := by
  cases hstep with
  | @commitAuction _ pid tid amt team hmode hnd hfindT hcanbid h1le hmaxle hbid hc =>
    refine valid_commit hV hnd (fun _ => ⟨by omega, ?_⟩) hc
    intro t ht hid
    unfold findTeam at hfindT
    have hteam_mem := List.mem_of_find?_eq_some hfindT
    have h3 := List.find?_some hfindT
    simp only [beq_iff_eq] at h3
    have hbid2 : amt ≤ team.budget := by
      unfold handleBidAccepts findTeam at hbid
      rw [hfindT] at hbid
      simpa using hbid
    have hteq : t = team :=
      List.inj_on_of_nodup_map hV.ids_nodup ht hteam_mem (by rw [hid, h3])
    rw [hteq]
    exact hbid2
  | commitSnake hmode hcur hnd hc =>
    refine valid_commit hV hnd (fun hmode2 => ?_) hc
    rw [hmode] at hmode2
    exact DraftMode.noConfusion hmode2
  | undo => exact valid_undo hV
  | reset => exact valid_reset hV hA haR

/-- Every state reachable from the initial state by commit, undo and
reset is valid. -/
theorem valid_reachable {settings : DraftSettings} {catalog : List Player}
    {s₀ s : DraftState} (h0 : IsInitial settings s₀)
    (hA : 0 ≤ settings.auctionBudget) (haR : 1 ≤ settings.auctionRounds)
    (hre : Reachable settings catalog s₀ s) : Valid settings s := by
  induction hre with
  | refl => exact valid_init h0 hA haR
  | tail _ hstep ih => exact valid_step hA haR ih hstep

/-- Claim C5: budget conservation.  In every state reachable from the
initial state by commit, undo and reset, every participant's remaining
budget equals the configured total budget minus the sum of the amounts
of that participant's auction-phase picks in the history, and that value
is never negative. -/
theorem claim_C5 (settings : DraftSettings) (catalog : List Player)
    (s₀ s : DraftState) (h0 : IsInitial settings s₀)
    (hA : 0 ≤ settings.auctionBudget) (haR : 1 ≤ settings.auctionRounds)
    (hre : Reachable settings catalog s₀ s) :
    ∀ t ∈ s.teams,
      t.budget = settings.auctionBudget -
        biddingSpent t.id settings.auctionRounds s.draftHistory ∧
      0 ≤ t.budget := by
  have hV := valid_reachable h0 hA haR hre
  exact fun t ht => ⟨hV.budget_eq t ht, hV.budget_nonneg t ht⟩

/-- Team 1 after the fixture commit of player 1 for $35. -/
def wTeamA_after : Team :=
  { wTeamA with
    budget := 165,
    players := [{ id := 1, name := "Alpha", position := "QB" }] }

/-- Claim C5 witness: after the fixture commit, team 1's budget is its
total budget minus its auction spending and is non-negative. -/
theorem claim_C5_witness :
    wTeamA_after.budget = wSettings.auctionBudget -
      biddingSpent wTeamA_after.id wSettings.auctionRounds wCommitted.draftHistory ∧
    0 ≤ wTeamA_after.budget :=
  claim_C5 wSettings wCatalog wInit wCommitted (by decide) (by decide) (by decide)
    (Relation.ReflTransGen.single
      (@Step.commitAuction wSettings wCatalog wInit wCommitted 1 1 35 wTeamA
        (by decide) (by decide) (by decide) (by decide) (by decide) (by decide)
        (by decide) (by decide)))
    wTeamA_after (by decide)

/-- Claim C6: round/pick coupling.  In every state reachable from the
initial state (round 1, pick 1) by commit, undo and reset,
`currentRound = (currentPick − 1) / participantCount + 1`. -/
theorem claim_C6 (settings : DraftSettings) (catalog : List Player)
    (s₀ s : DraftState) (h0 : IsInitial settings s₀)
    (hA : 0 ≤ settings.auctionBudget) (haR : 1 ≤ settings.auctionRounds)
    (hre : Reachable settings catalog s₀ s) :
    s.currentRound = (s.currentPick - 1) / s.teams.length + 1 :=
  (valid_reachable h0 hA haR hre).round_eq

/-- Claim C6 witness: the coupling holds after the fixture commit. -/
theorem claim_C6_witness :
    wCommitted.currentRound = (wCommitted.currentPick - 1) / wCommitted.teams.length + 1 :=
  claim_C6 wSettings wCatalog wInit wCommitted (by decide) (by decide) (by decide)
    (Relation.ReflTransGen.single
      (@Step.commitAuction wSettings wCatalog wInit wCommitted 1 1 35 wTeamA
        (by decide) (by decide) (by decide) (by decide) (by decide) (by decide)
        (by decide) (by decide)))

/-- Claim C7: order invariant.  Whenever a reachable state is in the
turn-taking phase, `snakeDraftOrder` is exactly the deterministic
budget-sorted id order of the current teams: a permutation of all
participant ids (no duplicates, no omissions), sorted descending by
remaining budget with the deterministic (id, name-length,
owner-name-length) hash tiebreak. -/
theorem claim_C7 (settings : DraftSettings) (catalog : List Player)
    (s₀ s : DraftState) (h0 : IsInitial settings s₀)
    (hA : 0 ≤ settings.auctionBudget) (haR : 1 ≤ settings.auctionRounds)
    (hre : Reachable settings catalog s₀ s)
    (hmode : s.draftMode = DraftMode.snake) :
    s.snakeDraftOrder = (sortTeamsByBudgetWithTiebreaker s.teams).map (fun t => t.id) ∧
    s.snakeDraftOrder.Perm (s.teams.map (fun t => t.id)) ∧
    s.snakeDraftOrder.Nodup ∧
    (sortTeamsByBudgetWithTiebreaker s.teams).Pairwise
      (fun a b => b.budget ≤ a.budget) := by
  have hV := valid_reachable h0 hA haR hre
  have h1 := hV.order_snake hmode
  have h2 : s.snakeDraftOrder.Perm (s.teams.map (fun t => t.id)) := by
    rw [h1]
    exact (sortTeams_perm s.teams).map (fun t => t.id)
  refine ⟨h1, h2, h2.nodup_iff.mpr hV.ids_nodup, ?_⟩
  refine List.Pairwise.imp ?_ (sortTeams_sorted s.teams)
  intro a b hab
  rcases hab with hlt | ⟨heq, _⟩
  · exact le_of_lt hlt
  · exact le_of_eq heq.symm

/-- A single fixture team with a $5 budget. -/
def wTeam1 : Team :=
  { id := 1, name := "Team 1", owner := "Owner 1", budget := 5,
    players := [], draftPosition := 1 }

/-- Fixture settings with a single auction round and one team. -/
def wSettings1 : DraftSettings :=
  { auctionBudget := 5, rosterSize := 16, auctionRounds := 1,
    draftTimer := 90, teamCount := 1 }

/-- The initial state for the single-team fixture. -/
def wInit1 : DraftState :=
  { teams := [wTeam1], draftedPlayers := [], draftHistory := [],
    currentRound := 1, currentPick := 1, draftMode := .auction,
    snakeDraftOrder := [], currentDraftTeam := none }

/-- The snake-mode state reached by committing player 1 for $1 in the
single-team fixture. -/
def wSnake1 : DraftState :=
  { teams :=
      [ { wTeam1 with
          budget := 4,
          players := [{ id := 1, name := "Alpha", position := "QB" }] } ],
    draftedPlayers := [1],
    draftHistory := [{ playerId := 1, teamId := 1, amount := 1, round := 1, pick := 1 }],
    currentRound := 2, currentPick := 2, draftMode := .snake,
    snakeDraftOrder := [1], currentDraftTeam := some 1 }

/-- Claim C7 witness: the snake order reached in the single-team
fixture is the sorted id permutation of its teams. -/
theorem claim_C7_witness :
    wSnake1.snakeDraftOrder =
      (sortTeamsByBudgetWithTiebreaker wSnake1.teams).map (fun t => t.id) ∧
    wSnake1.snakeDraftOrder.Perm (wSnake1.teams.map (fun t => t.id)) ∧
    wSnake1.snakeDraftOrder.Nodup ∧
    (sortTeamsByBudgetWithTiebreaker wSnake1.teams).Pairwise
      (fun a b => b.budget ≤ a.budget) :=
  claim_C7 wSettings1 wCatalog wInit1 wSnake1 (by decide) (by decide) (by decide)
    (Relation.ReflTransGen.single
      (@Step.commitAuction wSettings1 wCatalog wInit1 wSnake1 1 1 1 wTeam1
        (by decide) (by decide) (by decide) (by decide) (by decide) (by decide)
        (by decide) (by decide)))
    (by decide)
